import Mathlib

/-!
# Verification of the ingress aggregation-and-translation engine

Shallow embedding of `pkg/i2gw/aggregator.go`: the rule aggregator, route
builder, gateway builder, name sanitizer and canary-annotation extractor,
together with theorems settling the specification claims.

Modelling conventions:
* Go maps are represented as association lists kept in insertion order
  (`alGet` / `alSet`). Where the Go code ranges over a map, whose
  iteration order is unspecified, the embedding takes the iteration
  order as an explicit parameter (`toHTTPRoutesAndGateways` takes the
  order in which rule groups are visited); inner map iterations use
  insertion order.
* Go `nil`-pointer dereference (a runtime panic) is modelled by an outer
  `Option`: a function returns `none` exactly when the Go code would panic.
* Accumulated translation errors are modelled by their message strings.
* `int32` arithmetic wraps; `toInt32` reduces an unbounded `Int` into the
  `int32` range, and Go integer division truncates toward zero (`Int.tdiv`).
-/

/-! ## Association lists modelling Go maps -/

/-- Lookup in an insertion-ordered association list (Go `m[k]`, second result
of the comma-ok form being `isSome`). -/
def alGet {α β : Type} [DecidableEq α] (m : List (α × β)) (k : α) : Option β :=
  (m.find? (fun p => p.1 = k)).map (fun p => p.2)

/-- Write to an insertion-ordered association list (Go `m[k] = v`): update in
place if the key is present, otherwise append the new binding. -/
def alSet {α β : Type} [DecidableEq α] : List (α × β) → α → β → List (α × β)
  | [], k, v => [(k, v)]
  | (k', v') :: rest, k, v =>
    if k' = k then (k, v) :: rest else (k', v') :: alSet rest k v

/-- Repeated map insertion: fold a list of elements into an association list,
combining each element into the binding at its key. -/
def mapBuild {α β ε : Type} [DecidableEq α] (key : ε → α) (upd : Option β → ε → β) :
    List ε → List (α × β) → List (α × β)
  | [], s => s
  | e :: es, s => mapBuild key upd es (alSet s (key e) (upd (alGet s (key e)) e))

/-! ## int32 and `strconv.Atoi` models -/

/-- Reduce an integer into the `int32` range, as Go's wrapping conversion does. -/
def toInt32 (n : Int) : Int := (n + 2 ^ 31) % 2 ^ 32 - 2 ^ 31

/-- Value of a decimal digit string. -/
def digitsToNat (ds : List Char) : Nat :=
  ds.foldl (fun acc c => acc * 10 + (c.toNat - 48)) 0

/-- Model of Go `strconv.Atoi` with the error discarded: an optional sign
followed by at least one digit parses to its value, clamped into the 64-bit
range on overflow (Go returns the extreme value together with `ErrRange`);
any syntactically invalid input yields 0 (the zero value returned alongside
`ErrSyntax`). -/
def atoiModel (s : String) : Int :=
  let p : Int × List Char :=
    match s.data with
    | '+' :: rest => (1, rest)
    | '-' :: rest => (-1, rest)
    | rest => (1, rest)
  if p.2.isEmpty || p.2.any (fun c => !c.isDigit) then 0
  else
    let v : Int := p.1 * (digitsToNat p.2 : Int)
    if v > 2 ^ 63 - 1 then 2 ^ 63 - 1
    else if v < -(2 ^ 63) then -(2 ^ 63) else v

/-! ## Input data model (`k8s.io/api/networking/v1` fragment) -/

structure ServiceBackendPort where
  name : String
  number : Int
deriving DecidableEq

structure IngressServiceBackend where
  name : String
  port : ServiceBackendPort
deriving DecidableEq

structure TypedLocalObjectReference where
  apiGroup : Option String
  kind : String
  name : String
deriving DecidableEq

structure IngressBackend where
  service : Option IngressServiceBackend
  resource : Option TypedLocalObjectReference
deriving DecidableEq

structure HTTPIngressPath where
  path : String
  pathType : Option String
  backend : IngressBackend
deriving DecidableEq

structure HTTPIngressRuleValue where
  paths : List HTTPIngressPath
deriving DecidableEq

structure IngressRule where
  host : String
  http : Option HTTPIngressRuleValue
deriving DecidableEq

structure IngressTLS where
  hosts : List String
  secretName : String
deriving DecidableEq

structure IngressSpec where
  ingressClassName : Option String
  defaultBackend : Option IngressBackend
  tls : List IngressTLS
  rules : List IngressRule
deriving DecidableEq

structure Ingress where
  name : String
  ns : String
  anns : List (String × String)
  spec : IngressSpec
deriving DecidableEq

/-! ## Canary metadata (`extra` / `canary`) -/

structure Canary where
  enable : Bool
  headerKey : String
  headerValue : String
  headerRegexMatch : Bool
  weight : Int
  weightTotal : Int
deriving DecidableEq

structure Extra where
  canary : Option Canary
deriving DecidableEq

/-- Lookup of an annotation's value; a missing key reads as `""` in Go. -/
def annFind (anns : List (String × String)) (k : String) : Option String :=
  (anns.find? (fun p => p.1 = k)).map (fun p => p.2)

def annGet (anns : List (String × String)) (k : String) : String :=
  (annFind anns k).getD ""

/-- `getExtra`: extract the nginx canary annotation dialect from one ingress. -/
def getExtra (ingress : Ingress) : Extra :=
  if annGet ingress.anns "nginx.ingress.kubernetes.io/canary" = "true" then
    let c0 : Canary :=
      { enable := true, headerKey := "", headerValue := "", headerRegexMatch := false,
        weight := 0, weightTotal := 0 }
    let cHeader := annGet ingress.anns "nginx.ingress.kubernetes.io/canary-by-header"
    let c1 := if cHeader ≠ "" then { c0 with headerKey := cHeader, headerValue := "always" } else c0
    let cHeaderVal := annGet ingress.anns "nginx.ingress.kubernetes.io/canary-by-header-value"
    let c2 := if cHeaderVal ≠ "" then { c1 with headerValue := cHeaderVal } else c1
    let cHeaderRegex := annGet ingress.anns "nginx.ingress.kubernetes.io/canary-by-header-pattern"
    let c3 :=
      if cHeaderRegex ≠ "" then { c2 with headerValue := cHeaderRegex, headerRegexMatch := true }
      else c2
    let cHeaderWeight := annGet ingress.anns "nginx.ingress.kubernetes.io/canary-weight"
    let c4 :=
      if cHeaderWeight ≠ "" then
        { c3 with weight := atoiModel cHeaderWeight, weightTotal := 100 }
      else c3
    let cHeaderWeightTotal := annGet ingress.anns "nginx.ingress.kubernetes.io/canary-weight-total"
    let c5 :=
      if cHeaderWeightTotal ≠ "" then { c4 with weightTotal := atoiModel cHeaderWeightTotal }
      else c4
    { canary := some c5 }
  else { canary := none }

/-! ## Name sanitizer (`nameFromHost`) -/

/-- The character class `[a-zA-Z0-9]` of the sanitizer's regular expressions. -/
def isAlnumGo (c : Char) : Bool := c.isAlpha || c.isDigit

/-- Effect of `regexp.ReplaceAllString(host, "-")` for the pattern
`[^a-zA-Z0-9]+`: each maximal run of characters outside the class becomes a
single `'-'`. The flag records whether the previous character belonged to a
run that has already emitted its dash. -/
def collapseRuns (inRun : Bool) : List Char → List Char
  | [] => []
  | c :: rest =>
    if isAlnumGo c then c :: collapseRuns false rest
    else if inRun then collapseRuns true rest
    else '-' :: collapseRuns true rest

/-- `nameFromHost`: sanitize a hostname into a name token. -/
def nameFromHost (host : String) : String :=
  let step1 := String.mk (collapseRuns false host.data)
  let step2 := String.mk (step1.data.dropWhile (fun c => !isAlnumGo c))
  if host.length = 0 then "all-hosts" else step2

/-! ## Aggregator state and ingestion -/

structure IngressRuleEx where
  rule : IngressRule
  extra : Option Extra
deriving DecidableEq

structure IngressRuleGroup where
  ns : String
  ingressClass : String
  host : String
  tls : List IngressTLS
  rules : List IngressRuleEx
deriving DecidableEq

structure IngressDefaultBackend where
  name : String
  ns : String
  ingressClass : String
  backend : IngressBackend
deriving DecidableEq

structure IngressPath where
  path : HTTPIngressPath
  extra : Option Extra
deriving DecidableEq

structure IngressAggregator where
  ruleGroups : List (String × IngressRuleGroup)
  defaultBackends : List IngressDefaultBackend
deriving DecidableEq

/-- The grouping key `fmt.Sprintf("%s/%s/%s", namespace, ingressClass, host)`. -/
def ruleGroupKey (ns ingressClass host : String) : String :=
  ns ++ "/" ++ ingressClass ++ "/" ++ host

/-- `addIngressRule`: insert one source rule into its rule group, creating the
group on first insertion and appending the spec's TLS list when non-empty. -/
def addIngressRule (a : IngressAggregator) (ns ingressClass : String) (rule : IngressRule)
    (iSpec : IngressSpec) (e : Option Extra) : IngressAggregator :=
  let rgKey := ruleGroupKey ns ingressClass rule.host
  let rg0 : IngressRuleGroup :=
    match alGet a.ruleGroups rgKey with
    | some rg => rg
    | none => { ns := ns, ingressClass := ingressClass, host := rule.host, tls := [], rules := [] }
  let rg1 := if iSpec.tls.length > 0 then { rg0 with tls := rg0.tls ++ iSpec.tls } else rg0
  let rg2 := { rg1 with rules := rg1.rules ++ [{ rule := rule, extra := e }] }
  { a with ruleGroups := alSet a.ruleGroups rgKey rg2 }

/-- The legacy class annotation key `networkingv1beta1.AnnotationIngressClass`. -/
def ingressClassAnnKey : String := "kubernetes.io/ingress.class"

/-- Resolution of the effective ingress class: explicit non-empty class field,
else the legacy class annotation if present (even empty), else the object name. -/
def resolveIngressClass (ingress : Ingress) : String :=
  match ingress.spec.ingressClassName with
  | some c =>
    if c ≠ "" then c
    else
      match annFind ingress.anns ingressClassAnnKey with
      | some v => v
      | none => ingress.name
  | none =>
    match annFind ingress.anns ingressClassAnnKey with
    | some v => v
    | none => ingress.name

/-- `addIngress`: ingest one source object into the aggregator. -/
def addIngress (a : IngressAggregator) (ingress : Ingress) : IngressAggregator :=
  let ingressClass := resolveIngressClass ingress
  let e := getExtra ingress
  let a1 := ingress.spec.rules.foldl
    (fun acc rule => addIngressRule acc ingress.ns ingressClass rule ingress.spec (some e)) a
  match ingress.spec.defaultBackend with
  | some db =>
    { a1 with defaultBackends := a1.defaultBackends ++
        [{ name := ingress.name, ns := ingress.ns, ingressClass := ingressClass, backend := db }] }
  | none => a1

/-- Feed a whole list of source objects into a fresh aggregator. -/
def aggregate (l : List Ingress) : IngressAggregator :=
  l.foldl addIngress { ruleGroups := [], defaultBackends := [] }

/-! ## Output data model (`gateway-api v1beta1` fragment) -/

structure BackendRef where
  group : Option String
  kind : Option String
  name : String
  port : Option Int
  weight : Option Int
deriving DecidableEq

inductive PathMatchType where
  | pathPrefix
  | exact
deriving DecidableEq

inductive HeaderMatchType where
  | exact
  | regularExpression
deriving DecidableEq

structure HTTPPathMatch where
  type : Option PathMatchType
  value : Option String
deriving DecidableEq

structure HTTPHeaderMatch where
  name : String
  value : String
  type : Option HeaderMatchType
deriving DecidableEq

structure HTTPRouteMatch where
  path : Option HTTPPathMatch
  headers : List HTTPHeaderMatch
deriving DecidableEq

structure HTTPRouteRule where
  ruleMatches : List HTTPRouteMatch
  backendRefs : List BackendRef
deriving DecidableEq

structure HTTPRoute where
  name : String
  ns : String
  parentRefs : List String
  hostnames : List String
  rules : List HTTPRouteRule
deriving DecidableEq

structure GatewayTLSConfig where
  certificateRefs : List String
deriving DecidableEq

structure Listener where
  name : String := ""
  hostname : Option String := none
  port : Int := 0
  protocol : String := ""
  tls : Option GatewayTLSConfig := none
deriving DecidableEq

structure Gateway where
  ns : String
  name : String
  className : String
  listeners : List Listener
deriving DecidableEq

/-! ## Route builder -/

/-- `toBackendRef`: translate an ingress backend. A named service port is the
`UnsupportedNamedPort` error; a backend with neither service nor resource set
dereferences a nil pointer in the source (`none`). -/
def toBackendRef (ib : IngressBackend) : Option (Except String BackendRef) :=
  match ib.service with
  | some svc =>
    if svc.port.name ≠ "" then
      some (Except.error ("Named ports not supported: " ++ svc.port.name))
    else
      some (Except.ok
        { group := none, kind := none, name := svc.name, port := some svc.port.number,
          weight := none })
  | none =>
    match ib.resource with
    | some res =>
      some (Except.ok
        { group := res.apiGroup, kind := some res.kind, name := res.name, port := none,
          weight := none })
    | none => none

/-- `getPathMatchKey`: `fmt.Sprintf("%s/%s/%s", pathType, path, canaryHeaderKey)`. -/
def getPathMatchKey (ip : IngressPath) : String :=
  let pathType :=
    match ip.path.pathType with
    | some pt => pt
    | none => ""
  let canaryHeaderKey :=
    match ip.extra with
    | some ex =>
      match ex.canary with
      | some c => if c.headerKey ≠ "" then c.headerKey else ""
      | none => ""
    | none => ""
  pathType ++ "/" ++ ip.path.path ++ "/" ++ canaryHeaderKey

/-- `toHTTPRouteMatch`: translate a path entry into a route match. The source
dereferences `*ip.path.PathType`, so an absent path type is a panic (`none`);
a path type other than `Prefix`/`Exact` is the `UnsupportedPathType` error. -/
def toHTTPRouteMatch (ip : IngressPath) : Option (Except String HTTPRouteMatch) :=
  match ip.path.pathType with
  | none => none
  | some pt =>
    let pmt : Option PathMatchType :=
      if pt = "Prefix" then some PathMatchType.pathPrefix
      else if pt = "Exact" then some PathMatchType.exact
      else none
    match pmt with
    | none => some (Except.error ("Unsupported path match type: " ++ pt))
    | some t =>
      let base : HTTPRouteMatch :=
        { path := some { type := some t, value := some ip.path.path }, headers := [] }
      match ip.extra with
      | some ex =>
        match ex.canary with
        | some c =>
          if c.headerKey ≠ "" then
            let ht :=
              if c.headerRegexMatch then HeaderMatchType.regularExpression
              else HeaderMatchType.exact
            let hm : HTTPHeaderMatch :=
              { name := c.headerKey, value := c.headerValue, type := some ht }
            some (Except.ok { base with headers := [hm] })
          else some (Except.ok base)
        | none => some (Except.ok base)
      | none => some (Except.ok base)

/-- The canary weight carried by a path entry, when explicitly set
(`path.extra != nil && path.extra.canary != nil && path.extra.canary.weight != 0`). -/
def canaryWeightOf (p : IngressPath) : Option Int :=
  match p.extra with
  | some ex =>
    match ex.canary with
    | some c => if c.weight ≠ 0 then some c.weight else none
    | none => none
  | none => none

/-- One iteration of the backend-collection loop of `toHTTPRoute`:
accumulates (backendRefs, numWeightedBackends, totalWeightSet, errors). -/
def collectStep (acc : List BackendRef × Int × Int × List String) (p : IngressPath) :
    Option (List BackendRef × Int × Int × List String) :=
  match toBackendRef p.path.backend with
  | none => none
  | some (Except.error e) => some (acc.1, acc.2.1, acc.2.2.1, acc.2.2.2 ++ [e])
  | some (Except.ok br) =>
    match canaryWeightOf p with
    | some w0 =>
      let w := toInt32 w0
      some (acc.1 ++ [{ br with weight := some w }], toInt32 (acc.2.1 + 1),
        toInt32 (acc.2.2.1 + w), acc.2.2.2)
    | none => some (acc.1 ++ [br], acc.2.1, acc.2.2.1, acc.2.2.2)

/-- The backend-collection loop of `toHTTPRoute` over one partition. -/
def collectBackends (paths : List IngressPath) :
    Option (List BackendRef × Int × Int × List String) :=
  paths.foldlM collectStep ([], 0, 0, [])

/-- The weight-redistribution step of `toHTTPRoute` (lines guarding
`numWeightedBackends > 0 && numWeightedBackends < int32(len(backendRefs))`). -/
def redistribute (brs : List BackendRef) (nw tw : Int) : List BackendRef :=
  if 0 < nw ∧ nw < toInt32 brs.length then
    let wset := Int.tdiv (toInt32 (100 - tw)) (toInt32 (toInt32 brs.length - nw))
    brs.map (fun br =>
      match br.weight with
      | none => { br with weight := some wset }
      | some _ => br)
  else brs

/-- Translate one path-match partition into (at most) one route rule plus its
errors. Indexing `paths[0]` of an empty partition would panic, as would a match
construction on an absent path type. -/
def partitionToRule (paths : List IngressPath) : Option (List HTTPRouteRule × List String) :=
  match paths with
  | [] => none
  | p0 :: _ =>
    match toHTTPRouteMatch p0 with
    | none => none
    | some (Except.error e) => some ([], [e])
    | some (Except.ok m) => do
      let (brs, nw, tw, errs) ← collectBackends paths
      let brs2 := redistribute brs nw tw
      pure ([{ ruleMatches := [m], backendRefs := brs2 }], errs)

/-- Flatten a group's rules into path entries in loop order; a rule with an
absent HTTP section panics in the source (`ir.rule.HTTP.Paths`). -/
def ipsOfRules : List IngressRuleEx → Option (List IngressPath)
  | [] => some []
  | ir :: rest => do
    let h ← ir.rule.http
    let tail ← ipsOfRules rest
    pure (h.paths.map (fun p => ({ path := p, extra := ir.extra } : IngressPath)) ++ tail)

/-- The `pathsByMatchGroup` map of `toHTTPRoute`, in insertion order. -/
def pmBuild (ips : List IngressPath) : List (String × List IngressPath) :=
  mapBuild getPathMatchKey
    (fun o ip => match o with | none => [ip] | some ls => ls ++ [ip]) ips []

/-- `toHTTPRoute`: translate one rule group into a route plus accumulated
errors; `none` models the source panicking. -/
def routeRuleStep (acc : List HTTPRouteRule × List String) (kv : String × List IngressPath) :
    Option (List HTTPRouteRule × List String) := do
  let (r, e) ← partitionToRule kv.2
  pure (acc.1 ++ r, acc.2 ++ e)

def toHTTPRoute (rg : IngressRuleGroup) : Option (HTTPRoute × List String) := do
  let ips ← ipsOfRules rg.rules
  let pm := pmBuild ips
  let (rules, errs) ← pm.foldlM routeRuleStep ([], [])
  pure ({ name := nameFromHost rg.host, ns := rg.ns,
          parentRefs := if rg.ingressClass ≠ "" then [rg.ingressClass] else [],
          hostnames := if rg.host ≠ "" then [rg.host] else [],
          rules := rules }, errs)

/-! ## Gateway builder and full pipeline -/

/-- The intermediate listener a rule group contributes (only `Hostname` and
`TLS` of the zero `Listener` are filled in). -/
def groupListener (rg : IngressRuleGroup) : Listener :=
  let hostname : Option String :=
    if rg.host ≠ "" then some rg.host
    else
      match rg.tls with
      | [t] =>
        match t.hosts with
        | [h] => some h
        | _ => none
      | _ => none
  let tls : Option GatewayTLSConfig :=
    if rg.tls.length > 0 then
      some { certificateRefs := rg.tls.map (fun t => t.secretName) }
    else none
  { hostname := hostname, tls := tls }

/-- The gateway key `fmt.Sprintf("%s/%s", namespace, ingressClass)`. -/
def gatewayKeyOf (rg : IngressRuleGroup) : String := rg.ns ++ "/" ++ rg.ingressClass

/-- Model of `strings.Split(s, "/")`. -/
def splitSlashAux (cur : List Char) : List Char → List (List Char)
  | [] => [cur.reverse]
  | c :: rest =>
    if c = '/' then cur.reverse :: splitSlashAux [] rest
    else splitSlashAux (c :: cur) rest

def splitSlash (s : String) : List String :=
  (splitSlashAux [] s.data).map String.mk

/-- One iteration of the rule-group loop of `toHTTPRoutesAndGateways`: record
the group's listener under its gateway key and append the group's route. The
source binds the route's error slice to a shadowing local variable and appends
that variable to itself (`errors = append(errors, errors...)`), so the route's
errors never reach the enclosing error list: the embedding discards them. -/
def phase1Step (acc : List HTTPRoute × List (String × List Listener)) (rg : IngressRuleGroup) :
    Option (List HTTPRoute × List (String × List Listener)) := do
  let listener := groupListener rg
  let gwKey := gatewayKeyOf rg
  let lmap := alSet acc.2 gwKey (((alGet acc.2 gwKey).getD []) ++ [listener])
  let (httpRoute, _routeErrors) ← toHTTPRoute rg
  pure (acc.1 ++ [httpRoute], lmap)

/-- The metadata-only part of a default-backend route. -/
def dbRouteBase (db : IngressDefaultBackend) : HTTPRoute :=
  { name := db.name ++ "-default-backend", ns := db.ns,
    parentRefs := [db.ingressClass], hostnames := [], rules := [] }

/-- One iteration of the default-backend loop of `toHTTPRoutesAndGateways`. -/
def phase2Step (acc : List HTTPRoute × List String) (db : IngressDefaultBackend) :
    Option (List HTTPRoute × List String) :=
  match toBackendRef db.backend with
  | none => none
  | some (Except.error e) => some (acc.1 ++ [dbRouteBase db], acc.2 ++ [e])
  | some (Except.ok br) =>
    some (acc.1 ++
      [{ dbRouteBase db with rules := [{ ruleMatches := [], backendRefs := [br] }] }], acc.2)

/-- Expansion of one accumulated listener into its gateway listeners: an HTTP
listener on port 80 always, plus an HTTPS listener on port 443 when a TLS
config is present. -/
def expandListener (l : Listener) : List Listener :=
  let npfx : String :=
    match l.hostname with
    | some h => if h ≠ "" then nameFromHost h ++ "-" else ""
    | none => ""
  [{ name := npfx ++ "http", hostname := l.hostname, port := 80, protocol := "HTTP",
     tls := none }] ++
  (match l.tls with
   | some t =>
     [{ name := npfx ++ "https", hostname := l.hostname, port := 443, protocol := "HTTPS",
        tls := some t }]
   | none => [])

def expandListeners (ls : List Listener) : List Listener :=
  ls.flatMap expandListener

/-- One iteration of the gateway-construction loop over
`listenersByNamespacedGateway`: a key that does not split into exactly
(namespace, name) accumulates the malformed-key error; otherwise the gateway
for that key is created on first use and its listeners extended. -/
def phase3Step (acc : List (String × Gateway) × List String) (kv : String × List Listener) :
    List (String × Gateway) × List String :=
  match splitSlash kv.1 with
  | [nsPart, namePart] =>
    let gw0 : Gateway :=
      match alGet acc.1 kv.1 with
      | some g => g
      | none => { ns := nsPart, name := namePart, className := namePart, listeners := [] }
    let gw1 := { gw0 with listeners := gw0.listeners ++ expandListeners kv.2 }
    (alSet acc.1 kv.1 gw1, acc.2)
  | _ => (acc.1, acc.2 ++ ["Error generating Gateway listeners for key: " ++ kv.1])

def phase3Fold (lmap : List (String × List Listener)) (acc : List (String × Gateway) × List String) :
    List (String × Gateway) × List String :=
  lmap.foldl phase3Step acc

structure PipelineOut where
  routes : List HTTPRoute
  gateways : List Gateway
  errs : List String
deriving DecidableEq

/-- `toHTTPRoutesAndGateways`: the full transformation of an aggregator state.
`gOrd` is the order in which the `for _, rg := range a.ruleGroups` loop visits
the rule groups — Go map iteration order is unspecified, so it is passed
explicitly; a valid order is any permutation of the stored groups. -/
def toHTTPRoutesAndGateways (a : IngressAggregator) (gOrd : List IngressRuleGroup) :
    Option PipelineOut := do
  let (routes1, lmap) ← gOrd.foldlM phase1Step ([], [])
  let (routes2, errs2) ← a.defaultBackends.foldlM phase2Step (routes1, [])
  let (gmap, errs3) := phase3Fold lmap ([], [])
  pure { routes := routes2, gateways := gmap.map (fun kv => kv.2), errs := errs2 ++ errs3 }

/-- The stored rule groups of an aggregator, in insertion order. -/
def groupsOf (a : IngressAggregator) : List IngressRuleGroup :=
  a.ruleGroups.map (fun kv => kv.2)

/-- A full run on a list of source objects, visiting the rule groups in
insertion order. -/
def runPipeline (l : List Ingress) : Option PipelineOut :=
  toHTTPRoutesAndGateways (aggregate l) (groupsOf (aggregate l))

/-! ## Concrete example inputs -/

/-- A service backend with a numeric port. -/
def svcBackend (n : String) (p : Int) : IngressBackend :=
  { service := some { name := n, port := { name := "", number := p } }, resource := none }

/-- A service backend referencing its port by name. -/
def namedPortBackend (n : String) (portName : String) : IngressBackend :=
  { service := some { name := n, port := { name := portName, number := 0 } }, resource := none }

/-- A one-rule ingress without TLS or default backend. -/
def mkIng (nm nsv cls host : String) (paths : List HTTPIngressPath) : Ingress :=
  { name := nm, ns := nsv, anns := [],
    spec := { ingressClassName := some cls, defaultBackend := none, tls := [],
              rules := [{ host := host, http := some { paths := paths } }] } }

/-- One unsupported (`ImplementationSpecific`) path entry next to a supported
one in a different partition. -/
def exIngUnsupported : Ingress :=
  mkIng "ing1" "nsa" "cls" "example.com"
    [{ path := "/a", pathType := some "ImplementationSpecific", backend := svcBackend "svc" 80 },
     { path := "/b", pathType := some "Prefix", backend := svcBackend "svc" 80 }]

/-- A named-port backend sharing a partition with a numeric-port backend. -/
def exIngNamed : Ingress :=
  mkIng "ing1" "nsa" "cls" "example.com"
    [{ path := "/a", pathType := some "Prefix", backend := svcBackend "good" 80 },
     { path := "/a", pathType := some "Prefix", backend := namedPortBackend "bad" "web" }]

/-- `exIngNamed` with the named-port entry removed. -/
def exIngNamedAbsent : Ingress :=
  mkIng "ing1" "nsa" "cls" "example.com"
    [{ path := "/a", pathType := some "Prefix", backend := svcBackend "good" 80 }]

/-- Two source objects whose distinct (namespace, class, host) tuples collide
on the textual grouping key `a/b/c/x`. -/
def exIngSlashA : Ingress :=
  mkIng "i1" "a/b" "c" "x" [{ path := "/a", pathType := some "Prefix", backend := svcBackend "s" 80 }]

def exIngSlashB : Ingress :=
  mkIng "i2" "a" "b/c" "x" [{ path := "/a", pathType := some "Prefix", backend := svcBackend "s" 80 }]

/-- Two source objects with equal namespace and class but different hosts. -/
def exIngHost1 : Ingress :=
  mkIng "i1" "nsa" "cls" "h1.com" [{ path := "/a", pathType := some "Prefix", backend := svcBackend "s1" 80 }]

def exIngHost2 : Ingress :=
  mkIng "i2" "nsa" "cls" "h2.com" [{ path := "/b", pathType := some "Prefix", backend := svcBackend "s2" 80 }]

/-- Canary enabled with no further canary annotations. -/
def exIngCanaryBare : Ingress :=
  { name := "i", ns := "n", anns := [("nginx.ingress.kubernetes.io/canary", "true")],
    spec := { ingressClassName := none, defaultBackend := none, tls := [], rules := [] } }

/-- Canary enabled with a weight annotation exceeding the 64-bit range. -/
def exIngCanaryHuge : Ingress :=
  { name := "i", ns := "n",
    anns := [("nginx.ingress.kubernetes.io/canary", "true"),
             ("nginx.ingress.kubernetes.io/canary-weight", "99999999999999999999")],
    spec := { ingressClassName := none, defaultBackend := none, tls := [], rules := [] } }

/-! ## Claim C1: error propagation of the full transformation -/

/-- C1: the claim that every route-construction error reaches the run's error
list fails on the code. On a run whose only rule group produces one
`UnsupportedPathType` error, route construction reports the error, the route
for the group (and for every unaffected partition) is still built, yet the
error list of the full transformation is empty: the source binds the route
errors to a shadowing local and appends that local to itself, discarding it. -/
theorem c1_route_errors_dropped :
    (runPipeline [exIngUnsupported]).map PipelineOut.errs = some [] ∧
    ((aggregate [exIngUnsupported]).ruleGroups.map (fun kv => (toHTTPRoute kv.2).map Prod.snd))
      = [some ["Unsupported path match type: ImplementationSpecific"]] ∧
    (runPipeline [exIngUnsupported]).map (fun o => o.routes.length) = some 1 ∧
    (runPipeline [exIngUnsupported]).map
        (fun o => o.routes.map (fun r => r.rules.length)) = some [1] := by
  decide

/-! ## Claim C6: the named-port error and its containment -/

/-- C6: on a run whose single named-port path entry shares its partition with
a numeric-port entry, route construction produces exactly the one
`UnsupportedNamedPort` error and omits only that backend — the resulting
routes and gateways are identical to the run without the entry — but the full
transformation's error list is empty instead of containing the error, because
the source discards route errors (shadowed `errors` variable appended to
itself). -/
theorem c6_named_port_error_dropped :
    (runPipeline [exIngNamed]).map PipelineOut.errs = some [] ∧
    ((aggregate [exIngNamed]).ruleGroups.map (fun kv => (toHTTPRoute kv.2).map Prod.snd))
      = [some ["Named ports not supported: web"]] ∧
    (runPipeline [exIngNamed]).map PipelineOut.routes
      = (runPipeline [exIngNamedAbsent]).map PipelineOut.routes ∧
    (runPipeline [exIngNamed]).map PipelineOut.gateways
      = (runPipeline [exIngNamedAbsent]).map PipelineOut.gateways ∧
    (runPipeline [exIngNamed]).map
        (fun o => o.routes.map (fun r => r.rules.map (fun rr => rr.backendRefs.map BackendRef.name)))
      = some [[["good"]]] := by
  decide

/-! ## Claim C2: determinism counterexample -/

/-- C2 counterexample: the full transformation is not a function of the input
list alone. On a two-group input, visiting the rule groups in the two orders a
Go map may present them (insertion order and its reverse, both permutations
of the stored groups) yields different outputs — the route order differs — so
two runs on the same input need not produce identical lists. -/
theorem c2_counterexample :
    ((groupsOf (aggregate [exIngHost1, exIngHost2])).reverse).Perm
        (groupsOf (aggregate [exIngHost1, exIngHost2])) ∧
    toHTTPRoutesAndGateways (aggregate [exIngHost1, exIngHost2])
        ((groupsOf (aggregate [exIngHost1, exIngHost2])).reverse)
      ≠ toHTTPRoutesAndGateways (aggregate [exIngHost1, exIngHost2])
        (groupsOf (aggregate [exIngHost1, exIngHost2])) := by
  refine ⟨List.reverse_perm _, ?_⟩
  decide

/-! ## Claim C4: grouping-key counterexample -/

/-- C4 counterexample: the grouping key does not uniquely identify the
(namespace, ingress-class, host) tuple. The distinct tuples `("a/b", "c", "x")`
and `("a", "b/c", "x")` produce the same key `a/b/c/x`, and ingesting one rule
with each places both rules in a single shared rule group. -/
theorem c4_counterexample :
    ruleGroupKey "a/b" "c" "x" = ruleGroupKey "a" "b/c" "x" ∧
    ¬ (("a/b", "c", "x") = (("a", "b/c", "x") : String × String × String)) ∧
    (aggregate [exIngSlashA, exIngSlashB]).ruleGroups.map
        (fun kv => (kv.1, kv.2.rules.length)) = [("a/b/c/x", 2)] := by
  decide

/-! ## Claim C7: canary extraction counterexample -/

/-- C7 counterexample: with the canary annotation alone, the extracted
weight-total is 0, not the claimed default of 100 (the source only sets 100
inside the weight-annotation branch); and an out-of-range weight annotation
parses to the clamped 64-bit maximum, not to 0. -/
theorem c7_counterexample :
    ((getExtra exIngCanaryBare).canary.map Canary.weightTotal = some 0) ∧
    ¬ ((getExtra exIngCanaryBare).canary.map Canary.weightTotal = some 100) ∧
    ((getExtra exIngCanaryHuge).canary.map Canary.weight = some (2 ^ 63 - 1)) := by
  decide

/-! ## Claim C8: gateway production counterexample -/

/-- C8 counterexample: a rule group whose namespace contains `'/'` yields no
gateway at all — the reconstituted gateway key splits into three parts and the
group is skipped with a malformed-key error — so "exactly one gateway per
distinct (namespace, ingress-class) pair" fails. -/
theorem c8_counterexample :
    (runPipeline [exIngSlashA]).map PipelineOut.gateways = some [] ∧
    (aggregate [exIngSlashA]).ruleGroups.map (fun kv => (kv.2.ns, kv.2.ingressClass))
      = [("a/b", "c")] ∧
    (runPipeline [exIngSlashA]).map PipelineOut.errs
      = some ["Error generating Gateway listeners for key: a/b/c"] := by
  decide

/-! ## Claim C9: the name sanitizer -/

/-- Specification-side rendering of the sanitizer's first step, written as the
spec reads: every maximal run of characters outside `[a-zA-Z0-9]` becomes a
single `'-'`. -/
def replaceRunsSpec : List Char → List Char
  | [] => []
  | c :: rest =>
    if isAlnumGo c then c :: replaceRunsSpec rest
    else '-' :: replaceRunsSpec (rest.dropWhile (fun d => !isAlnumGo d))
termination_by l => l.length
decreasing_by
  · simp only [List.length_cons]
    omega
  · simp only [List.length_cons]
    have h1 : (rest.dropWhile (fun d => !isAlnumGo d)).length ≤ rest.length :=
      (List.dropWhile_sublist _).length_le
    omega

/-- Specification-side sanitizer: collapse runs, strip the separator run left
at the start, and map the empty input to the fixed all-hosts token. -/
def sanitizeSpec (host : String) : String :=
  if host = "" then "all-hosts"
  else String.mk ((replaceRunsSpec host.data).dropWhile (fun c => c == '-'))

theorem collapseRuns_true_eq (l : List Char) :
    collapseRuns true l = collapseRuns false (l.dropWhile (fun c => !isAlnumGo c)) := by
  induction l with
  | nil => rfl
  | cons c rest ih =>
    by_cases h : isAlnumGo c
    · simp [collapseRuns, h, List.dropWhile_cons]
    · simp only [collapseRuns, h, if_false, Bool.not_eq_true']
      rw [ih, List.dropWhile_cons]
      simp [h]

theorem collapseRuns_eq_replaceRunsSpec (l : List Char) :
    collapseRuns false l = replaceRunsSpec l := by
  induction l using replaceRunsSpec.induct with
  | case1 => rw [replaceRunsSpec]; rfl
  | case2 c rest h ih =>
    have h1 : collapseRuns false (c :: rest) = c :: collapseRuns false rest := by
      simp [collapseRuns, h]
    have h2 : replaceRunsSpec (c :: rest) = c :: replaceRunsSpec rest := by
      rw [replaceRunsSpec]; simp [h]
    rw [h1, h2, ih]
  | case3 c rest h ih =>
    have h1 : collapseRuns false (c :: rest) = '-' :: collapseRuns true rest := by
      simp [collapseRuns, h]
    have h2 : replaceRunsSpec (c :: rest)
        = '-' :: replaceRunsSpec (rest.dropWhile (fun d => !isAlnumGo d)) := by
      rw [replaceRunsSpec]; simp [h]
    rw [h1, h2, collapseRuns_true_eq, ih]

theorem mem_collapseRuns {c : Char} :
    ∀ (b : Bool) (l : List Char), c ∈ collapseRuns b l → isAlnumGo c ∨ c = '-' := by
  intro b l
  induction l generalizing b with
  | nil => intro h; cases h
  | cons d rest ih =>
    intro hmem
    by_cases hd : isAlnumGo d
    · simp only [collapseRuns, hd, if_true, List.mem_cons] at hmem
      rcases hmem with rfl | hmem
      · exact Or.inl hd
      · exact ih false hmem
    · simp only [collapseRuns, hd, if_false] at hmem
      cases b with
      | true => exact ih true hmem
      | false =>
        rcases List.mem_cons.mp hmem with rfl | hmem
        · exact Or.inr rfl
        · exact ih true hmem

theorem dropWhile_agree {p q : α → Bool} :
    ∀ l : List α, (∀ x ∈ l, p x = q x) → l.dropWhile p = l.dropWhile q := by
  intro l
  induction l with
  | nil => intro _; rfl
  | cons x rest ih =>
    intro h
    rw [List.dropWhile_cons, List.dropWhile_cons, h x (List.mem_cons_self x rest)]
    by_cases hq : q x
    · simp [hq, ih (fun y hy => h y (List.mem_cons_of_mem x hy))]
    · simp [hq]

/-- C9: the name sanitizer agrees everywhere with its specification — replace
every maximal run of characters outside `[a-zA-Z0-9]` by one `'-'`, strip the
separator run at the start, return the all-hosts token exactly on the empty
input — and meets the three stated examples. -/
theorem c9_name_from_host :
    (∀ host, nameFromHost host = sanitizeSpec host) ∧
    nameFromHost "foo.bar.com" = "foo-bar-com" ∧
    nameFromHost "" = "all-hosts" ∧
    nameFromHost "-abc.de" = "abc-de" := by
  refine ⟨?_, by decide, by decide, by decide⟩
  intro host
  unfold nameFromHost sanitizeSpec
  have hempty : host.length = 0 ↔ host = "" := by
    cases host with
    | mk data =>
      cases data with
      | nil => exact ⟨fun _ => rfl, fun _ => rfl⟩
      | cons c cs =>
        constructor
        · intro h0
          exact absurd h0 (by simp [String.length])
        · intro he
          exact absurd (congrArg String.data he) (by simp)
  by_cases h : host = ""
  · simp [h]
  · have hlen : ¬ host.length = 0 := fun h0 => h (hempty.mp h0)
    simp only [hlen, if_false, h]
    congr 1
    rw [collapseRuns_eq_replaceRunsSpec]
    refine dropWhile_agree _ (fun x hx => ?_)
    have hmem : isAlnumGo x ∨ x = '-' :=
      mem_collapseRuns false host.data
        (by rw [collapseRuns_eq_replaceRunsSpec]; exact hx)
    rcases hmem with hx1 | hx2
    · by_cases hxe : x = '-'
      · subst hxe; decide
      · simp [hx1, beq_iff_eq, hxe]
    · subst hx2; decide

/-! ## Claim C10: nil dereferences in route building -/

/-- The path-match partitions of a rule group, as route building iterates
them (empty when flattening already panics). -/
def partitionsOf (rg : IngressRuleGroup) : List (List IngressPath) :=
  match ipsOfRules rg.rules with
  | some ips => (pmBuild ips).map (fun kv => kv.2)
  | none => []

/-- A partition whose match construction dereferences an absent path type. -/
def headPathTypeMissing (part : List IngressPath) : Prop :=
  match part with
  | p :: _ => p.path.pathType = none
  | [] => False

instance (part : List IngressPath) : Decidable (headPathTypeMissing part) :=
  match part with
  | _ :: _ => inferInstanceAs (Decidable (_ = _))
  | [] => inferInstanceAs (Decidable False)

theorem ipsOfRules_eq_none {rules : List IngressRuleEx} {ir : IngressRuleEx}
    (hmem : ir ∈ rules) (hnone : ir.rule.http = none) : ipsOfRules rules = none := by
  induction rules with
  | nil => cases hmem
  | cons x rest ih =>
    rcases List.mem_cons.mp hmem with rfl | hmem2
    · simp [ipsOfRules, hnone]
    · cases hx : x.rule.http with
      | none => simp [ipsOfRules, hx]
      | some h => simp [ipsOfRules, hx, ih hmem2]

theorem foldlM_option_none {S ε : Type} (step : S → ε → Option S) {l : List ε} {e : ε}
    (he : e ∈ l) (hstep : ∀ s, step s e = none) :
    ∀ init, l.foldlM step init = none := by
  induction l with
  | nil => cases he
  | cons x rest ih =>
    intro init
    rcases List.mem_cons.mp he with rfl | he2
    · simp [List.foldlM, hstep]
    · cases hx : step init x with
      | none => simp [List.foldlM, hx]
      | some s => simp [List.foldlM, hx, ih he2]

/-- C10: route building panics — `none` in the embedding, not an accumulated
error — whenever an ingested rule lacks its HTTP section, and whenever the
first path entry of a partition lacks its path type; only when those options
are populated can the route builder's error accumulation be the sole failure
mode. -/
theorem c10_nil_deref :
    (∀ rg : IngressRuleGroup, (∃ ir ∈ rg.rules, ir.rule.http = none) →
      toHTTPRoute rg = none) ∧
    (∀ rg : IngressRuleGroup, (∃ part ∈ partitionsOf rg, headPathTypeMissing part) →
      toHTTPRoute rg = none) := by
  constructor
  · rintro rg ⟨ir, hmem, hnone⟩
    simp [toHTTPRoute, ipsOfRules_eq_none hmem hnone]
  · rintro rg ⟨part, hmem, hmiss⟩
    unfold partitionsOf at hmem
    cases hips : ipsOfRules rg.rules with
    | none => simp [toHTTPRoute, hips]
    | some ips =>
      rw [hips] at hmem
      rcases List.mem_map.mp hmem with ⟨kv, hkv, rfl⟩
      have hstep : ∀ acc : List HTTPRouteRule × List String,
          routeRuleStep acc kv = none := by
        intro acc
        cases hpart : kv.2 with
        | nil =>
          rw [hpart] at hmiss
          simp [headPathTypeMissing] at hmiss
        | cons p rest =>
          rw [hpart] at hmiss
          simp only [headPathTypeMissing] at hmiss
          simp [routeRuleStep, partitionToRule, hpart, toHTTPRouteMatch, hmiss]
      simp [toHTTPRoute, hips, foldlM_option_none _ hkv hstep]

/-- Concrete groups exercising both nil dereferences of `c10_nil_deref`. -/
def exGroupNoHttp : IngressRuleGroup :=
  { ns := "n", ingressClass := "c", host := "h", tls := [],
    rules := [{ rule := { host := "h", http := none }, extra := none }] }

def exGroupNoPathType : IngressRuleGroup :=
  { ns := "n", ingressClass := "c", host := "h", tls := [],
    rules := [{ rule := { host := "h", http := some { paths :=
      [{ path := "/a", pathType := none, backend := svcBackend "s" 80 }] } }, extra := none }] }

theorem c10_nil_deref_witness :
    toHTTPRoute exGroupNoHttp = none ∧ toHTTPRoute exGroupNoPathType = none :=
  ⟨c10_nil_deref.1 exGroupNoHttp (by decide),
   c10_nil_deref.2 exGroupNoPathType (by decide)⟩

/-! ## Claim C3: weight distribution -/

/-- Number of backends of a rule carrying an explicit weight. -/
def weightedCount (brs : List BackendRef) : Int :=
  ((brs.filter (fun br => br.weight.isSome)).length : Int)

/-- Sum of the weights carried by a rule's backends. -/
def weightSum (brs : List BackendRef) : Int :=
  brs.foldl (fun acc br => acc + br.weight.getD 0) 0

theorem toInt32_absorb_left (a b : Int) : toInt32 (toInt32 a + b) = toInt32 (a + b) := by
  unfold toInt32
  omega

theorem toInt32_eq_self {a : Int} (h1 : -(2 ^ 31) ≤ a) (h2 : a < 2 ^ 31) : toInt32 a = a := by
  unfold toInt32
  omega

theorem weightSum_append (l : List BackendRef) (b : BackendRef) :
    weightSum (l ++ [b]) = weightSum l + b.weight.getD 0 := by
  simp [weightSum]

theorem weightedCount_append (l : List BackendRef) (b : BackendRef) :
    weightedCount (l ++ [b]) = weightedCount l + (if b.weight.isSome then 1 else 0) := by
  by_cases hb : b.weight.isSome <;> simp [weightedCount, List.filter_append, hb]

theorem toBackendRef_ok_weight_none {ib : IngressBackend} {br : BackendRef}
    (h : toBackendRef ib = some (Except.ok br)) : br.weight = none := by
  unfold toBackendRef at h
  cases hs : ib.service with
  | some svc =>
    rw [hs] at h
    by_cases hn : svc.port.name ≠ "" <;> simp [hn] at h
    rw [← h]
  | none =>
    rw [hs] at h
    cases hr : ib.resource with
    | some res =>
      rw [hr] at h
      simp at h
      rw [← h]
    | none => rw [hr] at h; cases h

/-- One collection step preserves the counter invariant. -/
theorem collectStep_invariant {acc acc' : List BackendRef × Int × Int × List String}
    {p : IngressPath} (hstep : collectStep acc p = some acc')
    (h1 : acc.2.1 = toInt32 (weightedCount acc.1))
    (h2 : acc.2.2.1 = toInt32 (weightSum acc.1)) :
    acc'.2.1 = toInt32 (weightedCount acc'.1) ∧ acc'.2.2.1 = toInt32 (weightSum acc'.1) := by
  unfold collectStep at hstep
  cases htb : toBackendRef p.path.backend with
  | none => rw [htb] at hstep; cases hstep
  | some r =>
    rw [htb] at hstep
    cases r with
    | error e =>
      injection hstep with hstep
      subst hstep
      exact ⟨h1, h2⟩
    | ok br =>
      have hw := toBackendRef_ok_weight_none htb
      cases hcw : canaryWeightOf p with
      | some w0 =>
        rw [hcw] at hstep
        injection hstep with hstep
        subst hstep
        constructor
        · simp [weightedCount_append, hw, h1, toInt32_absorb_left]
        · simp [weightSum_append, hw, h2, toInt32_absorb_left]
      | none =>
        rw [hcw] at hstep
        injection hstep with hstep
        subst hstep
        constructor
        · simp [weightedCount_append, hw, h1]
        · simp [weightSum_append, hw, h2]

/-- The loop invariant of backend collection: the running counters are the
`int32`-wrapped weighted-backend count and weight sum of the collected list. -/
theorem collect_invariant :
    ∀ (ps : List IngressPath) (acc out : List BackendRef × Int × Int × List String),
    ps.foldlM collectStep acc = some out →
    acc.2.1 = toInt32 (weightedCount acc.1) → acc.2.2.1 = toInt32 (weightSum acc.1) →
    out.2.1 = toInt32 (weightedCount out.1) ∧ out.2.2.1 = toInt32 (weightSum out.1) := by
  intro ps
  induction ps with
  | nil =>
    intro acc out hfold h1 h2
    cases hfold
    exact ⟨h1, h2⟩
  | cons p rest ih =>
    intro acc out hfold h1 h2
    cases hstep : collectStep acc p with
    | none =>
      rw [show (p :: rest).foldlM collectStep acc
          = collectStep acc p >>= (fun s => rest.foldlM collectStep s) from rfl,
        hstep] at hfold
      cases hfold
    | some acc' =>
      rw [show (p :: rest).foldlM collectStep acc
          = collectStep acc p >>= (fun s => rest.foldlM collectStep s) from rfl,
        hstep] at hfold
      have hinv := collectStep_invariant hstep h1 h2
      exact ih acc' out hfold hinv.1 hinv.2

/-- A path entry carrying an explicit canary weight `w` on a numeric-port
service backend. -/
def exCanaryW (w : Int) : Option Extra :=
  let c : Canary :=
    { enable := true, headerKey := "", headerValue := "", headerRegexMatch := false,
      weight := w, weightTotal := 100 }
  some { canary := some c }

def exPathW (svc : String) (w : Int) : IngressPath :=
  { path := { path := "/a", pathType := some "Prefix", backend := svcBackend svc 80 },
    extra := exCanaryW w }

def exPathU (svc : String) : IngressPath :=
  { path := { path := "/a", pathType := some "Prefix", backend := svcBackend svc 80 },
    extra := some { canary := none } }

/-- C3: weight distribution within one route rule. With fewer than `2^31`
backends: when no collected backend carries an explicit weight nothing is
assigned; when all do, redistribution leaves the list unchanged (the guarded
divisor is never used); when some but not all do, every unweighted backend
receives `(100 − sum of explicit weights) / (count − weighted count)`
(truncated division) and weighted backends keep their weights — and the two
stated examples evaluate to 35/35 and 50. -/
theorem c3_weight_distribution :
    (∀ (ps : List IngressPath) (brs : List BackendRef) (nw tw : Int) (errs : List String),
      collectBackends ps = some (brs, nw, tw, errs) →
      (brs.length : Int) < 2 ^ 31 →
      ((nw = 0 → (∀ br ∈ brs, br.weight = none) ∧ redistribute brs nw tw = brs) ∧
       (nw = (brs.length : Int) → redistribute brs nw tw = brs) ∧
       (0 < nw → nw < (brs.length : Int) →
        -(2 ^ 31) ≤ weightSum brs → weightSum brs < 2 ^ 31 →
        -(2 ^ 31) ≤ 100 - weightSum brs → 100 - weightSum brs < 2 ^ 31 →
        redistribute brs nw tw = brs.map (fun br =>
          match br.weight with
          | none => { br with
              weight := some ((100 - weightSum brs).tdiv ((brs.length : Int) - nw)) }
          | some _ => br)))) ∧
    (collectBackends [exPathW "a" 30, exPathU "b", exPathU "c"]).map
        (fun r => (redistribute r.1 r.2.1 r.2.2.1).map (fun br => br.weight))
      = some [some 30, some 35, some 35] ∧
    (collectBackends [exPathW "a" 50, exPathU "b"]).map
        (fun r => (redistribute r.1 r.2.1 r.2.2.1).map (fun br => br.weight))
      = some [some 50, some 50] := by
  refine ⟨?_, by decide, by decide⟩
  intro ps brs nw tw errs hcol hlen
  have hinv := collect_invariant ps ([], 0, 0, []) (brs, nw, tw, errs) hcol rfl rfl
  have hwc0 : 0 ≤ weightedCount brs := Int.ofNat_nonneg _
  have hwcle : weightedCount brs ≤ (brs.length : Int) := by
    unfold weightedCount
    exact_mod_cast List.length_filter_le _ _
  have hnw : nw = weightedCount brs := by
    have := hinv.1
    simp only at this
    rw [this]
    exact toInt32_eq_self (by omega) (by omega)
  have hlen32 : toInt32 (brs.length : Int) = (brs.length : Int) :=
    toInt32_eq_self (by omega) hlen
  refine ⟨?_, ?_, ?_⟩
  · intro h0
    have hwc : weightedCount brs = 0 := by omega
    have hfilter : brs.filter (fun br => br.weight.isSome) = [] := by
      unfold weightedCount at hwc
      exact List.length_eq_zero.mp (by exact_mod_cast hwc)
    refine ⟨?_, ?_⟩
    · intro br hbr
      have hns := List.filter_eq_nil_iff.mp hfilter br hbr
      cases hbw : br.weight with
      | none => rfl
      | some w => exact absurd (by simp [hbw]) hns
    · unfold redistribute
      rw [if_neg]
      rintro ⟨ha, _⟩
      omega
  · intro hall
    unfold redistribute
    rw [if_neg]
    rintro ⟨_, hb⟩
    rw [hlen32] at hb
    omega
  · intro hpos hlt hs1 hs2 hn1 hn2
    have htw : tw = weightSum brs := by
      have := hinv.2
      simp only at this
      rw [this]
      exact toInt32_eq_self hs1 hs2
    unfold redistribute
    rw [if_pos ⟨hpos, by rw [hlen32]; exact hlt⟩]
    have hsub : toInt32 (toInt32 (brs.length : Int) - nw) = (brs.length : Int) - nw := by
      rw [hlen32]
      exact toInt32_eq_self (by omega) (by omega)
    have hnum : toInt32 (100 - tw) = 100 - weightSum brs := by
      rw [htw]
      exact toInt32_eq_self hn1 hn2
    simp only [hsub, hnum]

/-- The collected backends of the first C3 example. -/
def exBrs3 : List BackendRef :=
  [{ group := none, kind := none, name := "a", port := some 80, weight := some 30 },
   { group := none, kind := none, name := "b", port := some 80, weight := none },
   { group := none, kind := none, name := "c", port := some 80, weight := none }]

theorem c3_weight_distribution_witness :
    redistribute exBrs3 1 30 = exBrs3.map (fun br =>
      match br.weight with
      | none => { br with
          weight := some ((100 - weightSum exBrs3).tdiv ((exBrs3.length : Int) - 1)) }
      | some _ => br) :=
  (c3_weight_distribution.1 [exPathW "a" 30, exPathU "b", exPathU "c"] exBrs3 1 30 []
    (by decide) (by decide)).2.2 (by decide) (by decide) (by decide) (by decide)
    (by decide) (by decide)

/-! ## Claim C4 (amended): grouping-key injectivity without slashes -/

theorem append_slash_inj :
    ∀ (a a' b b' : List Char), '/' ∉ a → '/' ∉ a' →
      a ++ '/' :: b = a' ++ '/' :: b' → a = a' ∧ b = b' := by
  intro a
  induction a with
  | nil =>
    intro a' b b' _ ha' heq
    cases a' with
    | nil =>
      injection heq with _ h2
      exact ⟨rfl, h2⟩
    | cons c cs =>
      injection heq with h1 _
      exact absurd (h1 ▸ List.mem_cons_self c cs) ha'
  | cons c cs ih =>
    intro a' b b' ha ha' heq
    cases a' with
    | nil =>
      injection heq with h1 _
      exact absurd (h1 ▸ List.mem_cons_self c cs) ha
    | cons c' cs' =>
      injection heq with h1 h2
      have hm := ih cs' b b' (fun hx => ha (List.mem_cons_of_mem c hx))
        (fun hx => ha' (List.mem_cons_of_mem c' hx)) h2
      exact ⟨by rw [h1, hm.1], hm.2⟩

theorem string_data_inj {s t : String} (h : s.data = t.data) : s = t := by
  cases s with
  | mk d1 =>
    cases t with
    | mk d2 => exact congrArg String.mk h

/-- Injectivity of the grouping key for slash-free namespace and class. -/
theorem ruleGroupKey_inj (ns1 c1 h1 ns2 c2 h2 : String)
    (hn1 : '/' ∉ ns1.data) (hc1 : '/' ∉ c1.data)
    (hn2 : '/' ∉ ns2.data) (hc2 : '/' ∉ c2.data) :
    ruleGroupKey ns1 c1 h1 = ruleGroupKey ns2 c2 h2 ↔ (ns1 = ns2 ∧ c1 = c2 ∧ h1 = h2) := by
  constructor
  · intro heq
    have hdata : ns1.data ++ '/' :: (c1.data ++ '/' :: h1.data)
        = ns2.data ++ '/' :: (c2.data ++ '/' :: h2.data) := by
      have := congrArg String.data heq
      simpa [ruleGroupKey, List.append_assoc] using this
    have hfst := append_slash_inj _ _ _ _ hn1 hn2 hdata
    have hsnd := append_slash_inj _ _ _ _ hc1 hc2 hfst.2
    exact ⟨string_data_inj hfst.1, string_data_inj hsnd.1, string_data_inj hsnd.2⟩
  · rintro ⟨rfl, rfl, rfl⟩
    rfl

/-- C4 (amended): two ingested rules share a rule group exactly when their
textual grouping keys coincide, and — provided neither namespace nor
ingress-class contains `'/'` — the key coincides exactly when the
(namespace, ingress-class, host) tuples are equal, so under that proviso the
key uniquely identifies the tuple. -/
theorem c4_grouping_key (ns1 c1 h1 ns2 c2 h2 : String)
    (hn1 : '/' ∉ ns1.data) (hc1 : '/' ∉ c1.data)
    (hn2 : '/' ∉ ns2.data) (hc2 : '/' ∉ c2.data) :
    ruleGroupKey ns1 c1 h1 = ruleGroupKey ns2 c2 h2 ↔ (ns1 = ns2 ∧ c1 = c2 ∧ h1 = h2) :=
  ruleGroupKey_inj ns1 c1 h1 ns2 c2 h2 hn1 hc1 hn2 hc2

theorem c4_grouping_key_witness :
    ruleGroupKey "nsa" "cls" "h1" = ruleGroupKey "nsa" "cls" "h2"
      ↔ (("nsa" : String) = "nsa" ∧ ("cls" : String) = "cls" ∧ ("h1" : String) = "h2") :=
  c4_grouping_key "nsa" "cls" "h1" "nsa" "cls" "h2"
    (by decide) (by decide) (by decide) (by decide)

/-! ## Claim C7 (amended): canary annotation extraction -/

/-- C7 (amended): with the canary annotation off, no canary metadata is
produced; with it on, the extracted metadata is characterized componentwise:
header key from the header annotation; regular-expression mode exactly when a
pattern annotation is present; header value is the pattern if present, else
the explicit value if present, else the `always` sentinel if a header name is
present, else empty; weight is the `Atoi` parse of the weight annotation (0
when absent); and weight-total is the parse of the weight-total annotation
when present, else 100 when a weight annotation is present, else 0. -/
theorem c7_get_extra (ing : Ingress) :
    (annGet ing.anns "nginx.ingress.kubernetes.io/canary" ≠ "true" →
      (getExtra ing).canary = none) ∧
    (annGet ing.anns "nginx.ingress.kubernetes.io/canary" = "true" →
      ((getExtra ing).canary.map Canary.enable = some true ∧
       (getExtra ing).canary.map Canary.headerKey
         = some (annGet ing.anns "nginx.ingress.kubernetes.io/canary-by-header") ∧
       (getExtra ing).canary.map Canary.headerRegexMatch
         = some (if annGet ing.anns "nginx.ingress.kubernetes.io/canary-by-header-pattern" ≠ ""
             then true else false) ∧
       (getExtra ing).canary.map Canary.headerValue
         = some (if annGet ing.anns "nginx.ingress.kubernetes.io/canary-by-header-pattern" ≠ ""
             then annGet ing.anns "nginx.ingress.kubernetes.io/canary-by-header-pattern"
             else if annGet ing.anns "nginx.ingress.kubernetes.io/canary-by-header-value" ≠ ""
             then annGet ing.anns "nginx.ingress.kubernetes.io/canary-by-header-value"
             else if annGet ing.anns "nginx.ingress.kubernetes.io/canary-by-header" ≠ ""
             then "always" else "") ∧
       (getExtra ing).canary.map Canary.weight
         = some (if annGet ing.anns "nginx.ingress.kubernetes.io/canary-weight" ≠ ""
             then atoiModel (annGet ing.anns "nginx.ingress.kubernetes.io/canary-weight")
             else 0) ∧
       (getExtra ing).canary.map Canary.weightTotal
         = some (if annGet ing.anns "nginx.ingress.kubernetes.io/canary-weight-total" ≠ ""
             then atoiModel (annGet ing.anns "nginx.ingress.kubernetes.io/canary-weight-total")
             else if annGet ing.anns "nginx.ingress.kubernetes.io/canary-weight" ≠ ""
             then 100 else 0))) := by
  constructor
  · intro hne
    simp [getExtra, hne]
  · intro htrue
    by_cases h1 : annGet ing.anns "nginx.ingress.kubernetes.io/canary-by-header" = "" <;>
      by_cases h2 : annGet ing.anns "nginx.ingress.kubernetes.io/canary-by-header-value" = "" <;>
      by_cases h3 : annGet ing.anns "nginx.ingress.kubernetes.io/canary-by-header-pattern" = "" <;>
      by_cases h4 : annGet ing.anns "nginx.ingress.kubernetes.io/canary-weight" = "" <;>
      by_cases h5 : annGet ing.anns "nginx.ingress.kubernetes.io/canary-weight-total" = "" <;>
      simp [getExtra, htrue, h1, h2, h3, h4, h5]

theorem c7_get_extra_witness :
    (getExtra exIngCanaryBare).canary.map Canary.weightTotal
      = some (if annGet exIngCanaryBare.anns "nginx.ingress.kubernetes.io/canary-weight-total" ≠ ""
          then atoiModel (annGet exIngCanaryBare.anns "nginx.ingress.kubernetes.io/canary-weight-total")
          else if annGet exIngCanaryBare.anns "nginx.ingress.kubernetes.io/canary-weight" ≠ ""
          then 100 else 0) :=
  ((c7_get_extra exIngCanaryBare).2 (by decide)).2.2.2.2.2

/-! ## Association-list and map-build lemmas -/

theorem alGet_alSet_self {α β : Type} [DecidableEq α] (m : List (α × β)) (k : α) (v : β) :
    alGet (alSet m k v) k = some v := by
  induction m with
  | nil => simp [alSet, alGet, List.find?]
  | cons kv rest ih =>
    by_cases h : kv.1 = k
    · simp [alSet, h, alGet, List.find?]
    · cases kv with
      | mk k' v' =>
        simp only at h
        simp only [alSet, if_neg h]
        simpa [alGet, List.find?, h] using ih

theorem alGet_alSet_ne {α β : Type} [DecidableEq α] (m : List (α × β)) (k k' : α) (v : β)
    (hne : k ≠ k') : alGet (alSet m k v) k' = alGet m k' := by
  induction m with
  | nil => simp [alSet, alGet, List.find?, hne]
  | cons kv rest ih =>
    cases kv with
    | mk k0 v0 =>
      by_cases h : k0 = k
      · subst h
        simp [alSet, alGet, List.find?, hne]
      · simp only [alSet, if_neg h]
        by_cases h2 : k0 = k'
        · simp [alGet, List.find?, h2]
        · simpa [alGet, List.find?, h2] using ih

/-- Content of a built map at one key: the elements mapping to that key,
folded over the starting content. -/
theorem alGet_mapBuild {α β ε : Type} [DecidableEq α] (key : ε → α) (upd : Option β → ε → β) :
    ∀ (es : List ε) (s : List (α × β)) (k : α),
      alGet (mapBuild key upd es s) k
        = (es.filter (fun e => key e = k)).foldl (fun o e => some (upd o e)) (alGet s k) := by
  intro es
  induction es with
  | nil => intro s k; rfl
  | cons e rest ih =>
    intro s k
    by_cases h : key e = k
    · rw [show mapBuild key upd (e :: rest) s
          = mapBuild key upd rest (alSet s (key e) (upd (alGet s (key e)) e)) from rfl,
        ih]
      rw [show (e :: rest).filter (fun x => key x = k) = e :: rest.filter (fun x => key x = k) by
        simp [List.filter_cons, h]]
      rw [show alGet (alSet s (key e) (upd (alGet s (key e)) e)) k
          = some (upd (alGet s k) e) by rw [← h]; exact alGet_alSet_self s (key e) _]
      rfl
    · rw [show mapBuild key upd (e :: rest) s
          = mapBuild key upd rest (alSet s (key e) (upd (alGet s (key e)) e)) from rfl,
        ih]
      rw [show (e :: rest).filter (fun x => key x = k) = rest.filter (fun x => key x = k) by
        simp [List.filter_cons, h]]
      rw [alGet_alSet_ne s (key e) k _ h]

theorem mapBuild_append {α β ε : Type} [DecidableEq α] (key : ε → α) (upd : Option β → ε → β) :
    ∀ (es1 es2 : List ε) (s : List (α × β)),
      mapBuild key upd (es1 ++ es2) s = mapBuild key upd es2 (mapBuild key upd es1 s) := by
  intro es1
  induction es1 with
  | nil => intro es2 s; rfl
  | cons e rest ih => intro es2 s; exact ih es2 _

/-! ## The aggregator as a map build over flattened rule entries -/

/-- One (source object, rule) pair as fed to `addIngressRule`. -/
structure GroupEntry where
  ns : String
  ingressClass : String
  rule : IngressRule
  tlsList : List IngressTLS
  extra : Option Extra
deriving DecidableEq

def entryKey (e : GroupEntry) : String := ruleGroupKey e.ns e.ingressClass e.rule.host

/-- The rule-group update performed by `addIngressRule` for one entry. -/
def entryUpd (o : Option IngressRuleGroup) (e : GroupEntry) : IngressRuleGroup :=
  let rg0 : IngressRuleGroup :=
    match o with
    | some rg => rg
    | none =>
      { ns := e.ns, ingressClass := e.ingressClass, host := e.rule.host, tls := [], rules := [] }
  let rg1 := if e.tlsList.length > 0 then { rg0 with tls := rg0.tls ++ e.tlsList } else rg0
  { rg1 with rules := rg1.rules ++ [{ rule := e.rule, extra := e.extra }] }

/-- The entry handed to `addIngressRule` for one rule. -/
def entryOf (ns cls : String) (rule : IngressRule) (iSpec : IngressSpec)
    (e : Option Extra) : GroupEntry :=
  { ns := ns, ingressClass := cls, rule := rule, tlsList := iSpec.tls, extra := e }

/-- The rule entries one ingress contributes, in ingestion order. -/
def entriesOfIngress (ing : Ingress) : List GroupEntry :=
  ing.spec.rules.map (fun r =>
    entryOf ing.ns (resolveIngressClass ing) r ing.spec (some (getExtra ing)))

def entriesOfList (l : List Ingress) : List GroupEntry :=
  l.flatMap entriesOfIngress

theorem addIngressRule_eq (a : IngressAggregator) (ns cls : String) (rule : IngressRule)
    (iSpec : IngressSpec) (e : Option Extra) :
    addIngressRule a ns cls rule iSpec e
      = { a with ruleGroups :=
          mapBuild entryKey entryUpd [entryOf ns cls rule iSpec e] a.ruleGroups } := rfl

theorem addIngress_ruleGroups (a : IngressAggregator) (ing : Ingress) :
    (addIngress a ing).ruleGroups
      = mapBuild entryKey entryUpd (entriesOfIngress ing) a.ruleGroups := by
  unfold addIngress entriesOfIngress
  have hfold : ∀ (rules : List IngressRule) (a0 : IngressAggregator),
      (rules.foldl (fun acc rule =>
        addIngressRule acc ing.ns (resolveIngressClass ing) rule ing.spec
          (some (getExtra ing))) a0).ruleGroups
        = mapBuild entryKey entryUpd
            (rules.map (fun r =>
              entryOf ing.ns (resolveIngressClass ing) r ing.spec (some (getExtra ing))))
            a0.ruleGroups := by
    intro rules
    induction rules with
    | nil => intro a0; rfl
    | cons r rest ih =>
      intro a0
      rw [List.foldl_cons, ih, addIngressRule_eq]
      rfl
  cases hdb : ing.spec.defaultBackend with
  | some db => simpa using hfold ing.spec.rules a
  | none => simpa using hfold ing.spec.rules a

theorem aggregate_ruleGroups (l : List Ingress) :
    (aggregate l).ruleGroups = mapBuild entryKey entryUpd (entriesOfList l) [] := by
  have hgen : ∀ (l : List Ingress) (a : IngressAggregator),
      (l.foldl addIngress a).ruleGroups
        = mapBuild entryKey entryUpd (entriesOfList l) a.ruleGroups := by
    intro l
    induction l with
    | nil => intro a; rfl
    | cons ing rest ih =>
      intro a
      rw [List.foldl_cons, ih, addIngress_ruleGroups]
      unfold entriesOfList
      rw [List.flatMap_cons, mapBuild_append]
  exact hgen l _

theorem if_nonempty_append {γ : Type} (x l : List γ) :
    (if l.length > 0 then x ++ l else x) = x ++ l := by
  cases l with
  | nil => simp
  | cons c cs => simp

/-- The source rule recorded in a group for one entry. -/
def mkRuleEx (e : GroupEntry) : IngressRuleEx := { rule := e.rule, extra := e.extra }

/-- The fields of the group built from a non-empty run of entries. -/
def groupOfRun (f0 : GroupEntry) (fs : List GroupEntry) : IngressRuleGroup :=
  { ns := f0.ns, ingressClass := f0.ingressClass, host := f0.rule.host,
    tls := (f0 :: fs).flatMap GroupEntry.tlsList,
    rules := (f0 :: fs).map mkRuleEx }

/-- Folding entry updates over an existing group appends the entries' TLS
lists and rules. -/
theorem foldl_entryUpd_some (fs : List GroupEntry) :
    ∀ g : IngressRuleGroup,
      fs.foldl (fun o e => some (entryUpd o e)) (some g)
        = some { g with tls := g.tls ++ fs.flatMap GroupEntry.tlsList,
                        rules := g.rules ++ fs.map mkRuleEx } := by
  induction fs with
  | nil => intro g; simp
  | cons f rest ih =>
    intro g
    rw [List.foldl_cons]
    rw [show entryUpd (some g) f
        = { g with tls := g.tls ++ f.tlsList, rules := g.rules ++ [mkRuleEx f] } by
      unfold entryUpd mkRuleEx
      cases htl : f.tlsList with
      | nil => simp
      | cons t ts => simp]
    rw [ih]
    simp [mkRuleEx]

/-- The group built from a non-empty run of entries at one key: header fields
from the first entry, TLS and rules accumulated over all of them. -/
theorem foldl_entryUpd_none (f0 : GroupEntry) (fs : List GroupEntry) :
    (f0 :: fs).foldl (fun o e => some (entryUpd o e)) none = some (groupOfRun f0 fs) := by
  rw [List.foldl_cons]
  rw [show entryUpd none f0
      = { ns := f0.ns, ingressClass := f0.ingressClass, host := f0.rule.host,
          tls := f0.tlsList, rules := [mkRuleEx f0] } by
    unfold entryUpd mkRuleEx
    cases htl : f0.tlsList with
    | nil => simp
    | cons t ts => simp]
  rw [foldl_entryUpd_some]
  simp [groupOfRun, mkRuleEx]

/-! ## Claim C5: grouping under permutation of the input -/

/-- C5 counterexample: permuting the input can change a rule group beyond its
intra-group element order. The slash-colliding pair shares the single key
`a/b/c/x`, and the group's header fields — set from whichever rule was
inserted first — flip from namespace `a/b`, class `c` to namespace `a`,
class `b/c` when the two source objects are swapped, so the swapped run does
not yield the same rule groups up to intra-group order. -/
theorem c5_counterexample :
    ([exIngSlashA, exIngSlashB].Perm [exIngSlashB, exIngSlashA]) ∧
    ((aggregate [exIngSlashA, exIngSlashB]).ruleGroups.map
        (fun kv => (kv.1, kv.2.ns, kv.2.ingressClass)))
      = [("a/b/c/x", "a/b", "c")] ∧
    ((aggregate [exIngSlashB, exIngSlashA]).ruleGroups.map
        (fun kv => (kv.1, kv.2.ns, kv.2.ingressClass)))
      = [("a/b/c/x", "a", "b/c")] := by
  refine ⟨List.Perm.swap exIngSlashB exIngSlashA [], ?_, ?_⟩ <;> decide

/-- C5 (amended): permuting the input source-object list yields, at every
grouping key, either no rule group on both sides or rule groups holding
permutations of the same source rules and the same TLS entries; moreover,
whenever no ingested namespace or ingress-class contains `'/'` (so keys
cannot collide), the groups' header fields (namespace, ingress-class, host)
also coincide, i.e. the groups differ at most in intra-group element order.
Without that proviso the header fields, taken from the first inserter, may
change under permutation. -/
theorem c5_grouping_perm (l1 l2 : List Ingress) (hp : l1.Perm l2) :
    ∀ k : String,
      (alGet (aggregate l1).ruleGroups k = none ↔ alGet (aggregate l2).ruleGroups k = none) ∧
      (∀ g1 g2, alGet (aggregate l1).ruleGroups k = some g1 →
        alGet (aggregate l2).ruleGroups k = some g2 →
        g1.rules.Perm g2.rules ∧ g1.tls.Perm g2.tls ∧
        ((∀ e ∈ entriesOfList l1, '/' ∉ e.ns.data ∧ '/' ∉ e.ingressClass.data) →
          g1.ns = g2.ns ∧ g1.ingressClass = g2.ingressClass ∧ g1.host = g2.host)) := by
  intro k
  have he : (entriesOfList l1).Perm (entriesOfList l2) := hp.flatMap_right entriesOfIngress
  have hf : ((entriesOfList l1).filter (fun e => entryKey e = k)).Perm
      ((entriesOfList l2).filter (fun e => entryKey e = k)) := he.filter _
  have h1 : alGet (aggregate l1).ruleGroups k
      = ((entriesOfList l1).filter (fun e => entryKey e = k)).foldl
          (fun o e => some (entryUpd o e)) none := by
    rw [aggregate_ruleGroups, alGet_mapBuild]
    rfl
  have h2 : alGet (aggregate l2).ruleGroups k
      = ((entriesOfList l2).filter (fun e => entryKey e = k)).foldl
          (fun o e => some (entryUpd o e)) none := by
    rw [aggregate_ruleGroups, alGet_mapBuild]
    rfl
  cases hc1 : (entriesOfList l1).filter (fun e => entryKey e = k) with
  | nil =>
    have hc2 : (entriesOfList l2).filter (fun e => entryKey e = k) = [] :=
      List.Perm.eq_nil ((hc1 ▸ hf).symm)
    rw [h1, h2, hc1, hc2]
    exact ⟨Iff.rfl, fun g1 g2 hg1 _ => by cases hg1⟩
  | cons f0 fs =>
    cases hc2 : (entriesOfList l2).filter (fun e => entryKey e = k) with
    | nil =>
      exfalso
      have := List.Perm.eq_nil (hc2 ▸ hf)
      rw [hc1] at this
      cases this
    | cons f0' fs' =>
      have hf0 : f0 ∈ (entriesOfList l1).filter (fun e => entryKey e = k) := by
        rw [hc1]
        exact List.mem_cons_self _ _
      have hf0' : f0' ∈ (entriesOfList l2).filter (fun e => entryKey e = k) := by
        rw [hc2]
        exact List.mem_cons_self _ _
      have hm0 := List.mem_filter.mp hf0
      have hm0' := List.mem_filter.mp hf0'
      rw [h1, h2, hc1, hc2, foldl_entryUpd_none, foldl_entryUpd_none]
      refine ⟨?_, ?_⟩
      · constructor <;> intro h <;> cases h
      intro g1 g2 hg1 hg2
      injection hg1 with hg1
      injection hg2 with hg2
      subst hg1
      subst hg2
      rw [hc1, hc2] at hf
      refine ⟨hf.map mkRuleEx, hf.flatMap_right GroupEntry.tlsList, ?_⟩
      intro hnoslash
      have hk0 : entryKey f0 = k := by simpa using hm0.2
      have hk0' : entryKey f0' = k := by simpa using hm0'.2
      have he0' : f0' ∈ entriesOfList l1 := he.mem_iff.mpr hm0'.1
      have hs0 := hnoslash f0 hm0.1
      have hs0' := hnoslash f0' he0'
      have hkey : ruleGroupKey f0.ns f0.ingressClass f0.rule.host
          = ruleGroupKey f0'.ns f0'.ingressClass f0'.rule.host := by
        rw [show ruleGroupKey f0.ns f0.ingressClass f0.rule.host = entryKey f0 from rfl,
          show ruleGroupKey f0'.ns f0'.ingressClass f0'.rule.host = entryKey f0' from rfl,
          hk0, hk0']
      have hcomp := (ruleGroupKey_inj _ _ _ _ _ _ hs0.1 hs0.2 hs0'.1 hs0'.2).mp hkey
      exact ⟨hcomp.1, hcomp.2.1, hcomp.2.2⟩

theorem c5_grouping_perm_witness :
    (alGet (aggregate [exIngHost1, exIngHost2]).ruleGroups "nsa/cls/h1.com" = none ↔
      alGet (aggregate [exIngHost2, exIngHost1]).ruleGroups "nsa/cls/h1.com" = none) ∧
    (∀ g1 g2,
      alGet (aggregate [exIngHost1, exIngHost2]).ruleGroups "nsa/cls/h1.com" = some g1 →
      alGet (aggregate [exIngHost2, exIngHost1]).ruleGroups "nsa/cls/h1.com" = some g2 →
      g1.rules.Perm g2.rules ∧ g1.tls.Perm g2.tls ∧
      ((∀ e ∈ entriesOfList [exIngHost1, exIngHost2],
          '/' ∉ e.ns.data ∧ '/' ∉ e.ingressClass.data) →
        g1.ns = g2.ns ∧ g1.ingressClass = g2.ingressClass ∧ g1.host = g2.host)) :=
  c5_grouping_perm [exIngHost1, exIngHost2] [exIngHost2, exIngHost1]
    (List.Perm.swap exIngHost2 exIngHost1 []) "nsa/cls/h1.com"

/-! ## `strings.Split` on the gateway key -/

theorem splitSlashAux_ne_nil : ∀ (l cur : List Char), splitSlashAux cur l ≠ [] := by
  intro l
  induction l with
  | nil => intro cur h; cases h
  | cons c rest ih =>
    intro cur
    by_cases hc : c = '/'
    · simp [splitSlashAux, hc]
    · simpa [splitSlashAux, hc] using ih (c :: cur)

theorem splitSlashAux_no_slash : ∀ (l cur : List Char), '/' ∉ l →
    splitSlashAux cur l = [cur.reverse ++ l] := by
  intro l
  induction l with
  | nil => intro cur _; simp [splitSlashAux]
  | cons c rest ih =>
    intro cur hns
    have hc : ¬ c = '/' := fun h => hns (h ▸ List.mem_cons_self c rest)
    rw [show splitSlashAux cur (c :: rest) = splitSlashAux (c :: cur) rest by
      simp [splitSlashAux, hc]]
    rw [ih (c :: cur) (fun h => hns (List.mem_cons_of_mem c h))]
    simp

theorem splitSlashAux_slash : ∀ (a : List Char), '/' ∉ a → ∀ (cur b : List Char),
    splitSlashAux cur (a ++ '/' :: b) = (cur.reverse ++ a) :: splitSlashAux [] b := by
  intro a
  induction a with
  | nil => intro _ cur b; simp [splitSlashAux]
  | cons c rest ih =>
    intro hns cur b
    have hc : ¬ c = '/' := fun h => hns (h ▸ List.mem_cons_self c rest)
    rw [show splitSlashAux cur ((c :: rest) ++ '/' :: b)
        = splitSlashAux (c :: cur) (rest ++ '/' :: b) by
      simp [splitSlashAux, hc]]
    rw [ih (fun h => hns (List.mem_cons_of_mem c h)) (c :: cur) b]
    simp

theorem string_mk_data (s : String) : String.mk s.data = s := by
  cases s
  rfl

/-- Splitting a well-formed two-component gateway key. -/
theorem splitSlash_pair (a b : String) (ha : '/' ∉ a.data) (hb : '/' ∉ b.data) :
    splitSlash (a ++ "/" ++ b) = [a, b] := by
  unfold splitSlash
  rw [show (a ++ "/" ++ b).data = a.data ++ '/' :: b.data by simp]
  rw [splitSlashAux_slash a.data ha [] b.data, splitSlashAux_no_slash b.data [] hb]
  simp [string_mk_data]

/-- Join of split parts, used to reconstruct the key. -/
def joinParts : List (List Char) → List Char
  | [] => []
  | [p] => p
  | p :: q :: ps => p ++ '/' :: joinParts (q :: ps)

theorem joinParts_splitSlashAux : ∀ (l cur : List Char),
    joinParts (splitSlashAux cur l) = cur.reverse ++ l := by
  intro l
  induction l with
  | nil => intro cur; simp [splitSlashAux, joinParts]
  | cons c rest ih =>
    intro cur
    by_cases hc : c = '/'
    · subst hc
      rw [show splitSlashAux cur ('/' :: rest) = cur.reverse :: splitSlashAux [] rest by
        simp [splitSlashAux]]
      cases haux : splitSlashAux [] rest with
      | nil => exact absurd haux (splitSlashAux_ne_nil rest [])
      | cons q ps =>
        rw [show joinParts (cur.reverse :: q :: ps) = cur.reverse ++ '/' :: joinParts (q :: ps)
          from rfl]
        rw [← haux, ih []]
        simp
    · rw [show splitSlashAux cur (c :: rest) = splitSlashAux (c :: cur) rest by
        simp [splitSlashAux, hc]]
      rw [ih (c :: cur)]
      simp

/-- A key that splits into exactly two parts is their slash-joined pair. -/
theorem splitSlash_eq_two {k a b : String} (h : splitSlash k = [a, b]) :
    k = a ++ "/" ++ b := by
  unfold splitSlash at h
  have hparts : splitSlashAux [] k.data = [a.data, b.data] := by
    cases haux : splitSlashAux [] k.data with
    | nil => exact absurd haux (splitSlashAux_ne_nil k.data [])
    | cons p ps =>
      rw [haux] at h
      cases ps with
      | nil => cases h
      | cons q qs =>
        cases qs with
        | nil =>
          simp only [List.map_cons, List.map_nil] at h
          injection h with h1 h2
          injection h2 with h2 _
          rw [← h1, ← h2]
        | cons r rs => cases h
  have hjoin := joinParts_splitSlashAux k.data []
  rw [hparts] at hjoin
  apply string_data_inj
  rw [show (a ++ "/" ++ b).data = a.data ++ '/' :: b.data by simp]
  rw [show joinParts [a.data, b.data] = a.data ++ '/' :: b.data from rfl] at hjoin
  simpa using hjoin.symm

/-! ## Key-list lemmas for association lists -/

def alKeys {α β : Type} (m : List (α × β)) : List α := m.map Prod.fst

theorem alGet_isSome_iff_mem {α β : Type} [DecidableEq α] (m : List (α × β)) (k : α) :
    (alGet m k).isSome ↔ k ∈ alKeys m := by
  induction m with
  | nil => simp [alGet, alKeys, List.find?]
  | cons kv rest ih =>
    cases kv with
    | mk k0 v0 =>
      by_cases h : k0 = k
      · subst h
        simp [alGet, alKeys, List.find?]
      · have hskip : alGet ((k0, v0) :: rest) k = alGet rest k := by
          simp [alGet, List.find?, h]
        rw [hskip, ih]
        simp [alKeys, Ne.symm h]

theorem alGet_eq_none_iff {α β : Type} [DecidableEq α] (m : List (α × β)) (k : α) :
    alGet m k = none ↔ k ∉ alKeys m := by
  rw [← alGet_isSome_iff_mem]
  cases alGet m k <;> simp

theorem alKeys_alSet {α β : Type} [DecidableEq α] (m : List (α × β)) (k : α) (v : β) :
    alKeys (alSet m k v) = if k ∈ alKeys m then alKeys m else alKeys m ++ [k] := by
  induction m with
  | nil => simp [alSet, alKeys]
  | cons kv rest ih =>
    cases kv with
    | mk k0 v0 =>
      by_cases h : k0 = k
      · subst h
        simp [alSet, alKeys]
      · simp only [alSet, if_neg h, alKeys, List.map_cons] at ih ⊢
        rw [ih]
        by_cases hm : k ∈ List.map Prod.fst rest <;> simp [hm, Ne.symm h]

theorem alKeys_alSet_nodup {α β : Type} [DecidableEq α] (m : List (α × β)) (k : α) (v : β)
    (h : (alKeys m).Nodup) : (alKeys (alSet m k v)).Nodup := by
  rw [alKeys_alSet]
  by_cases hm : k ∈ alKeys m
  · simpa [hm] using h
  · simp only [hm, if_false]
    simp [List.nodup_append, h, hm]

theorem alKeys_mapBuild_nodup {α β ε : Type} [DecidableEq α] (key : ε → α)
    (upd : Option β → ε → β) :
    ∀ (es : List ε) (s : List (α × β)), (alKeys s).Nodup →
      (alKeys (mapBuild key upd es s)).Nodup := by
  intro es
  induction es with
  | nil => intro s h; exact h
  | cons e rest ih =>
    intro s h
    exact ih _ (alKeys_alSet_nodup _ _ _ h)

theorem foldl_some_isSome {β ε : Type} (upd : Option β → ε → β) :
    ∀ (fs : List ε) (x : β), (fs.foldl (fun o e => some (upd o e)) (some x)).isSome := by
  intro fs
  induction fs with
  | nil => intro x; simp
  | cons g gs ih =>
    intro x
    rw [List.foldl_cons]
    exact ih _

theorem mem_alKeys_mapBuild {α β ε : Type} [DecidableEq α] (key : ε → α)
    (upd : Option β → ε → β) (es : List ε) (s : List (α × β)) (k : α) :
    k ∈ alKeys (mapBuild key upd es s) ↔ k ∈ alKeys s ∨ ∃ e ∈ es, key e = k := by
  rw [← alGet_isSome_iff_mem, alGet_mapBuild]
  cases hf : es.filter (fun e => key e = k) with
  | nil =>
    rw [List.foldl_nil, alGet_isSome_iff_mem]
    have hno : ¬ ∃ e ∈ es, key e = k := by
      intro ⟨e, he, hk⟩
      have := List.filter_eq_nil_iff.mp hf e he
      simp [hk] at this
    simp [hno]
  | cons f fs =>
    have hyes : ∃ e ∈ es, key e = k := by
      have hmem : f ∈ es.filter (fun e => key e = k) := by rw [hf]; exact List.mem_cons_self f fs
      have := List.mem_filter.mp hmem
      exact ⟨f, this.1, by simpa using this.2⟩
    rw [List.foldl_cons]
    simp only [hyes, or_true, iff_true]
    exact foldl_some_isSome _ fs _

theorem alGet_of_mem_nodup {α β : Type} [DecidableEq α] {m : List (α × β)} {kv : α × β}
    (hnd : (alKeys m).Nodup) (hmem : kv ∈ m) : alGet m kv.1 = some kv.2 := by
  induction m with
  | nil => cases hmem
  | cons kv0 rest ih =>
    rcases List.mem_cons.mp hmem with rfl | hmem2
    · cases kv with
      | mk k v => simp [alGet, List.find?]
    · cases kv0 with
      | mk k0 v0 =>
        have hnd0 : (k0 :: List.map Prod.fst rest).Nodup := hnd
        have hhead := (List.nodup_cons.mp hnd0).1
        have hnd2 : (alKeys rest).Nodup := (List.nodup_cons.mp hnd0).2
        have hk : ¬ k0 = kv.1 := by
          intro he
          refine hhead ?_
          rw [he]
          exact List.mem_map_of_mem Prod.fst hmem2
        simp only [alGet, List.find?]
        rw [show (decide ((k0, v0).1 = kv.1)) = false by simp [hk]]
        exact ih hnd2 hmem2

theorem alGet_append {α β : Type} [DecidableEq α] (m1 m2 : List (α × β)) (k : α) :
    alGet (m1 ++ m2) k
      = match alGet m1 k with
        | some v => some v
        | none => alGet m2 k := by
  induction m1 with
  | nil => simp [alGet, List.find?]
  | cons kv rest ih =>
    cases kv with
    | mk k0 v0 =>
      by_cases h : k0 = k
      · subst h
        simp [alGet, List.find?]
      · simp only [List.cons_append, alGet, List.find?] at ih ⊢
        simpa [h] using ih

theorem alSet_absent {α β : Type} [DecidableEq α] {m : List (α × β)} {k : α} (v : β)
    (h : alGet m k = none) : alSet m k v = m ++ [(k, v)] := by
  induction m with
  | nil => rfl
  | cons kv rest ih =>
    cases kv with
    | mk k0 v0 =>
      by_cases hk : k0 = k
      · subst hk
        simp [alGet, List.find?] at h
      · simp only [alGet, List.find?] at h ih ⊢
        rw [show alSet ((k0, v0) :: rest) k v = (k0, v0) :: alSet rest k v by
          simp [alSet, hk]]
        simp only [List.cons_append, List.cons.injEq, true_and]
        exact ih (by simpa [hk] using h)

/-! ## Characterizing the pipeline phases -/

/-- The listener-map update performed for one rule group. -/
def listenerUpd (o : Option (List Listener)) (rg : IngressRuleGroup) : List Listener :=
  (o.getD []) ++ [groupListener rg]

/-- The `listenersByNamespacedGateway` map built from a visit order. -/
def lmapOf (gOrd : List IngressRuleGroup) : List (String × List Listener) :=
  mapBuild gatewayKeyOf listenerUpd gOrd []

/-- The route list produced by visiting the rule groups in order, `none` when
any group's route construction panics. -/
def routesOf : List IngressRuleGroup → Option (List HTTPRoute)
  | [] => some []
  | rg :: rest => do
    let pr ← toHTTPRoute rg
    let rs ← routesOf rest
    pure (pr.1 :: rs)

theorem phase1_spec :
    ∀ (gOrd : List IngressRuleGroup) (acc : List HTTPRoute × List (String × List Listener)),
      gOrd.foldlM phase1Step acc
        = (routesOf gOrd).map
            (fun rs => (acc.1 ++ rs, mapBuild gatewayKeyOf listenerUpd gOrd acc.2)) := by
  intro gOrd
  induction gOrd with
  | nil => intro acc; simp [mapBuild, routesOf]
  | cons rg rest ih =>
    intro acc
    rw [show (rg :: rest).foldlM phase1Step acc
        = phase1Step acc rg >>= (fun s => rest.foldlM phase1Step s) from rfl]
    cases h : toHTTPRoute rg with
    | none =>
      rw [show phase1Step acc rg = none by simp [phase1Step, h]]
      simp [routesOf, h]
    | some pr =>
      rw [show phase1Step acc rg = some (acc.1 ++ [pr.1],
          alSet acc.2 (gatewayKeyOf rg) (listenerUpd (alGet acc.2 (gatewayKeyOf rg)) rg)) by
        simp [phase1Step, h, listenerUpd]]
      rw [show (some (acc.1 ++ [pr.1], alSet acc.2 (gatewayKeyOf rg)
            (listenerUpd (alGet acc.2 (gatewayKeyOf rg)) rg))
          >>= (fun s => rest.foldlM phase1Step s))
          = rest.foldlM phase1Step (acc.1 ++ [pr.1],
              alSet acc.2 (gatewayKeyOf rg) (listenerUpd (alGet acc.2 (gatewayKeyOf rg)) rg))
        from rfl]
      rw [ih]
      cases hrest : routesOf rest with
      | none => simp [routesOf, h, hrest]
      | some rs => simp [routesOf, h, hrest, mapBuild, listenerUpd]

/-- Processing of the default-backend list in isolation. -/
def dbProcess : List IngressDefaultBackend → Option (List HTTPRoute × List String)
  | [] => some ([], [])
  | db :: rest =>
    match toBackendRef db.backend with
    | none => none
    | some (Except.error e) =>
      (dbProcess rest).map (fun pr => (dbRouteBase db :: pr.1, e :: pr.2))
    | some (Except.ok br) =>
      (dbProcess rest).map (fun pr =>
        ({ dbRouteBase db with rules := [{ ruleMatches := [], backendRefs := [br] }] } :: pr.1,
          pr.2))

theorem phase2_spec :
    ∀ (dbs : List IngressDefaultBackend) (acc : List HTTPRoute × List String),
      dbs.foldlM phase2Step acc
        = (dbProcess dbs).map (fun pr => (acc.1 ++ pr.1, acc.2 ++ pr.2)) := by
  intro dbs
  induction dbs with
  | nil => intro acc; simp [dbProcess]
  | cons db rest ih =>
    intro acc
    rw [show (db :: rest).foldlM phase2Step acc
        = phase2Step acc db >>= (fun s => rest.foldlM phase2Step s) from rfl]
    cases htb : toBackendRef db.backend with
    | none =>
      rw [show phase2Step acc db = none by simp [phase2Step, htb]]
      simp [dbProcess, htb]
    | some r =>
      cases r with
      | error e =>
        rw [show phase2Step acc db = some (acc.1 ++ [dbRouteBase db], acc.2 ++ [e]) by
          simp [phase2Step, htb]]
        rw [show (some (acc.1 ++ [dbRouteBase db], acc.2 ++ [e])
            >>= (fun s => rest.foldlM phase2Step s))
            = rest.foldlM phase2Step (acc.1 ++ [dbRouteBase db], acc.2 ++ [e]) from rfl]
        rw [ih]
        cases hrest : dbProcess rest with
        | none => simp [dbProcess, htb, hrest]
        | some pr => simp [dbProcess, htb, hrest]
      | ok br =>
        rw [show phase2Step acc db = some (acc.1 ++
            [{ dbRouteBase db with rules := [{ ruleMatches := [], backendRefs := [br] }] }],
            acc.2) by simp [phase2Step, htb]]
        rw [show (some (acc.1 ++
            [{ dbRouteBase db with rules := [{ ruleMatches := [], backendRefs := [br] }] }],
            acc.2) >>= (fun s => rest.foldlM phase2Step s))
            = rest.foldlM phase2Step (acc.1 ++
              [{ dbRouteBase db with rules := [{ ruleMatches := [], backendRefs := [br] }] }],
              acc.2) from rfl]
        rw [ih]
        cases hrest : dbProcess rest with
        | none => simp [dbProcess, htb, hrest]
        | some pr => simp [dbProcess, htb, hrest]

/-- The gateway created for a well-formed key splitting into `(p, q)`. -/
def gatewayFor (kv : String × List Listener) (p q : String) : Gateway :=
  { ns := p, name := q, className := q, listeners := expandListeners kv.2 }

/-- The gateway-map entry derived from one listener-map binding, when the key
splits into (namespace, name). -/
def mkGatewayEntry (kv : String × List Listener) : Option (String × Gateway) :=
  match splitSlash kv.1 with
  | [nsPart, namePart] => some (kv.1, gatewayFor kv nsPart namePart)
  | _ => none

/-- The malformed-key error derived from one listener-map binding, when the
key does not split into exactly two parts. -/
def mkKeyError (kv : String × List Listener) : Option String :=
  match splitSlash kv.1 with
  | [_, _] => none
  | _ => some ("Error generating Gateway listeners for key: " ++ kv.1)

theorem phase3_spec :
    ∀ (lmap : List (String × List Listener)) (gacc : List (String × Gateway) × List String),
      (alKeys lmap).Nodup →
      (∀ kv ∈ lmap, alGet gacc.1 kv.1 = none) →
      phase3Fold lmap gacc
        = (gacc.1 ++ lmap.filterMap mkGatewayEntry, gacc.2 ++ lmap.filterMap mkKeyError) := by
  intro lmap
  induction lmap with
  | nil => intro gacc _ _; simp [phase3Fold]
  | cons kv rest ih =>
    intro gacc hnd habs
    have hkabs : alGet gacc.1 kv.1 = none := habs kv (List.mem_cons_self kv rest)
    have hnd0 : (kv.1 :: List.map Prod.fst rest).Nodup := hnd
    have hhead := (List.nodup_cons.mp hnd0).1
    have hndrest : (alKeys rest).Nodup := (List.nodup_cons.mp hnd0).2
    have habs0 : ∀ kv' ∈ rest, alGet gacc.1 kv'.1 = none :=
      fun kv' h' => habs kv' (List.mem_cons_of_mem kv h')
    rw [show phase3Fold (kv :: rest) gacc = phase3Fold rest (phase3Step gacc kv) from rfl]
    cases hsplit : splitSlash kv.1 with
    | nil =>
      rw [show phase3Step gacc kv
          = (gacc.1, gacc.2 ++ ["Error generating Gateway listeners for key: " ++ kv.1]) by
        simp [phase3Step, hsplit]]
      rw [ih (gacc.1, gacc.2 ++ ["Error generating Gateway listeners for key: " ++ kv.1])
        hndrest habs0]
      simp [List.filterMap_cons, mkGatewayEntry, mkKeyError, hsplit]
    | cons p ps =>
      cases ps with
      | nil =>
        rw [show phase3Step gacc kv
            = (gacc.1, gacc.2 ++ ["Error generating Gateway listeners for key: " ++ kv.1]) by
          simp [phase3Step, hsplit]]
        rw [ih (gacc.1, gacc.2 ++ ["Error generating Gateway listeners for key: " ++ kv.1])
          hndrest habs0]
        simp [List.filterMap_cons, mkGatewayEntry, mkKeyError, hsplit]
      | cons q qs =>
        cases qs with
        | nil =>
          have hstep : phase3Step gacc kv = (gacc.1 ++ [(kv.1, gatewayFor kv p q)], gacc.2) := by
            rw [show phase3Step gacc kv
                = (alSet gacc.1 kv.1 (gatewayFor kv p q), gacc.2) by
              simp [phase3Step, hsplit, hkabs, gatewayFor]]
            rw [alSet_absent _ hkabs]
          rw [hstep]
          have habs1 : ∀ kv' ∈ rest,
              alGet (gacc.1 ++ [(kv.1, gatewayFor kv p q)]) kv'.1 = none := by
            intro kv' h'
            rw [alGet_append, habs0 kv' h']
            have hne : ¬ kv.1 = kv'.1 := by
              intro he
              refine hhead ?_
              rw [he]
              exact List.mem_map_of_mem Prod.fst h'
            simp [alGet, List.find?, hne]
          rw [ih (gacc.1 ++ [(kv.1, gatewayFor kv p q)], gacc.2) hndrest habs1]
          simp [List.filterMap_cons, mkGatewayEntry, mkKeyError, hsplit, gatewayFor]
        | cons r rs =>
          rw [show phase3Step gacc kv
              = (gacc.1, gacc.2 ++ ["Error generating Gateway listeners for key: " ++ kv.1]) by
            simp [phase3Step, hsplit]]
          rw [ih (gacc.1, gacc.2 ++ ["Error generating Gateway listeners for key: " ++ kv.1])
            hndrest habs0]
          simp [List.filterMap_cons, mkGatewayEntry, mkKeyError, hsplit]

/-- The full transformation, rephrased: routes from the visited groups then
the default backends; gateways and malformed-key errors from the listener
map; route errors dropped (the source's shadowing bug); default-backend
errors first. -/
theorem pipeline_spec (a : IngressAggregator) (gOrd : List IngressRuleGroup) :
    toHTTPRoutesAndGateways a gOrd
      = (routesOf gOrd).bind (fun rs =>
          (dbProcess a.defaultBackends).map (fun pr =>
            { routes := rs ++ pr.1,
              gateways := ((lmapOf gOrd).filterMap mkGatewayEntry).map (fun kv => kv.2),
              errs := pr.2 ++ (lmapOf gOrd).filterMap mkKeyError })) := by
  have hnd : (alKeys (lmapOf gOrd)).Nodup :=
    alKeys_mapBuild_nodup _ _ gOrd [] (by simp [alKeys])
  cases hro : routesOf gOrd with
  | none =>
    simp [toHTTPRoutesAndGateways, phase1_spec gOrd ([], []), hro]
  | some rs =>
    cases hdb : dbProcess a.defaultBackends with
    | none =>
      simp [toHTTPRoutesAndGateways, phase1_spec gOrd ([], []), hro, phase2_spec, hdb]
    | some pr =>
      have h3 := phase3_spec (lmapOf gOrd) ([], []) hnd (fun kv _ => rfl)
      simp only [lmapOf] at h3
      simp [toHTTPRoutesAndGateways, phase1_spec gOrd ([], []), hro, phase2_spec, hdb, h3,
        lmapOf]

/-! ## Content of the listener map -/

theorem foldl_listenerUpd_some :
    ∀ (fs : List IngressRuleGroup) (ls : List Listener),
      fs.foldl (fun o rg => some (listenerUpd o rg)) (some ls)
        = some (ls ++ fs.map groupListener) := by
  intro fs
  induction fs with
  | nil => intro ls; simp
  | cons f rest ih =>
    intro ls
    rw [List.foldl_cons]
    rw [show listenerUpd (some ls) f = ls ++ [groupListener f] from rfl]
    rw [ih]
    simp

theorem alGet_lmapOf (gOrd : List IngressRuleGroup) (k : String) :
    alGet (lmapOf gOrd) k
      = match gOrd.filter (fun rg => gatewayKeyOf rg = k) with
        | [] => none
        | fs => some (fs.map groupListener) := by
  rw [lmapOf, alGet_mapBuild]
  cases hf : gOrd.filter (fun rg => gatewayKeyOf rg = k) with
  | nil => rfl
  | cons f fs =>
    rw [List.foldl_cons]
    rw [show listenerUpd (alGet ([] : List (String × List Listener)) k) f
        = [groupListener f] from rfl]
    rw [foldl_listenerUpd_some]
    simp

theorem mem_alKeys_lmapOf (gOrd : List IngressRuleGroup) (k : String) :
    k ∈ alKeys (lmapOf gOrd) ↔ ∃ rg ∈ gOrd, gatewayKeyOf rg = k := by
  rw [lmapOf, mem_alKeys_mapBuild]
  simp [alKeys]

theorem mkGatewayEntry_some_inv {kv : String × List Listener} {e : String × Gateway}
    (h : mkGatewayEntry kv = some e) :
    ∃ p q, splitSlash kv.1 = [p, q] ∧ e = (kv.1, gatewayFor kv p q) := by
  unfold mkGatewayEntry at h
  cases hs : splitSlash kv.1 with
  | nil => rw [hs] at h; cases h
  | cons p ps =>
    cases ps with
    | nil => rw [hs] at h; cases h
    | cons q qs =>
      cases qs with
      | nil =>
        rw [hs] at h
        injection h with h
        exact ⟨p, q, rfl, h.symm⟩
      | cons r rs => rw [hs] at h; cases h

/-- The (namespace, name) pair read off a gateway key. -/
def keyToPair (k : String) : Option (String × String) :=
  match splitSlash k with
  | [p, q] => some (p, q)
  | _ => none

theorem keyToPair_inj {k k' : String} {pq : String × String}
    (h1 : keyToPair k = some pq) (h2 : keyToPair k' = some pq) : k = k' := by
  unfold keyToPair at h1 h2
  cases hs : splitSlash k with
  | nil => rw [hs] at h1; cases h1
  | cons p ps =>
    rw [hs] at h1
    cases ps with
    | nil => cases h1
    | cons q qs =>
      cases qs with
      | nil =>
        injection h1 with h1
        cases hs' : splitSlash k' with
        | nil => rw [hs'] at h2; cases h2
        | cons p' ps' =>
          rw [hs'] at h2
          cases ps' with
          | nil => cases h2
          | cons q' qs' =>
            cases qs' with
            | nil =>
              injection h2 with h2
              rw [splitSlash_eq_two hs, splitSlash_eq_two hs']
              rw [show p = pq.1 by rw [← h1], show q = pq.2 by rw [← h1],
                show p' = pq.1 by rw [← h2], show q' = pq.2 by rw [← h2]]
            | cons => cases h2
      | cons => cases h1

/-- Inversion of a successful run: the output's three components. -/
theorem pipeline_some_inv {a : IngressAggregator} {gOrd : List IngressRuleGroup}
    {out : PipelineOut} (hsome : toHTTPRoutesAndGateways a gOrd = some out) :
    ∃ rs pr, routesOf gOrd = some rs ∧ dbProcess a.defaultBackends = some pr ∧
      out = { routes := rs ++ pr.1,
              gateways := ((lmapOf gOrd).filterMap mkGatewayEntry).map (fun kv => kv.2),
              errs := pr.2 ++ (lmapOf gOrd).filterMap mkKeyError } := by
  rw [pipeline_spec] at hsome
  cases hro : routesOf gOrd with
  | none => rw [hro] at hsome; cases hsome
  | some rs =>
    rw [hro] at hsome
    cases hdb : dbProcess a.defaultBackends with
    | none => rw [hdb] at hsome; cases hsome
    | some pr =>
      rw [hdb] at hsome
      injection hsome with h
      exact ⟨rs, pr, rfl, rfl, h.symm⟩

theorem mkGatewayEntry_pair (kv : String × List Listener) :
    (mkGatewayEntry kv).map (fun e => (e.2.ns, e.2.name)) = keyToPair kv.1 := by
  unfold mkGatewayEntry keyToPair
  cases hs : splitSlash kv.1 with
  | nil => rfl
  | cons p ps =>
    cases ps with
    | nil => rfl
    | cons q qs =>
      cases qs with
      | nil => rfl
      | cons r rs => rfl

/-- C8 (amended): provided no visited rule group's namespace or ingress-class
contains `'/'`, every successful run produces exactly one gateway per distinct
(namespace, ingress-class) pair among the visited rule groups — the pair list
is duplicate-free, every group's pair is covered, and every gateway stems from
some group — with gateway name and class name equal to the ingress-class
verbatim; each gateway's listeners are exactly the expansion, in visit order,
of its groups' listeners, where each group contributes one HTTP listener on
port 80 always plus one HTTPS listener on port 443 carrying TLS exactly when
the group's TLS list is non-empty; and the two-hosts example yields one
gateway with two listeners. -/
theorem c8_gateway_structure (a : IngressAggregator) (gOrd : List IngressRuleGroup)
    (out : PipelineOut)
    (hslash : ∀ rg ∈ gOrd, '/' ∉ rg.ns.data ∧ '/' ∉ rg.ingressClass.data)
    (hsome : toHTTPRoutesAndGateways a gOrd = some out) :
    ((out.gateways.map (fun gw => (gw.ns, gw.name))).Nodup) ∧
    (∀ rg ∈ gOrd, ∃ gw ∈ out.gateways, gw.ns = rg.ns ∧ gw.name = rg.ingressClass) ∧
    (∀ gw ∈ out.gateways, ∃ rg ∈ gOrd, rg.ns = gw.ns ∧ rg.ingressClass = gw.name) ∧
    (∀ gw ∈ out.gateways, gw.className = gw.name ∧
      gw.listeners
        = (gOrd.filter (fun rg => rg.ns = gw.ns ∧ rg.ingressClass = gw.name)).flatMap
            (fun rg => expandListener (groupListener rg))) ∧
    (∀ rg : IngressRuleGroup,
      (expandListener (groupListener rg)).map (fun l => (l.port, l.protocol, l.tls.isSome))
        = [((80 : Int), "HTTP", false)]
          ++ (if rg.tls.length > 0 then [((443 : Int), "HTTPS", true)] else [])) ∧
    ((runPipeline [exIngHost1, exIngHost2]).map
        (fun o => o.gateways.map (fun gw => (gw.ns, gw.name, gw.className, gw.listeners.length)))
      = some [("nsa", "cls", "cls", 2)]) := by
  obtain ⟨rs, pr, hro, hdb, hout⟩ := pipeline_some_inv hsome
  have hgw : out.gateways = ((lmapOf gOrd).filterMap mkGatewayEntry).map (fun kv => kv.2) := by
    rw [hout]
  have hnd : (alKeys (lmapOf gOrd)).Nodup :=
    alKeys_mapBuild_nodup _ _ gOrd [] (by simp [alKeys])
  refine ⟨?_, ?_, ?_, ?_, ?_, by decide⟩
  · rw [hgw, List.map_filterMap, List.map_filterMap]
    have hcongr : ∀ kv ∈ lmapOf gOrd,
        Option.map (fun gw : Gateway => (gw.ns, gw.name))
            (Option.map (fun kv : String × Gateway => kv.2) (mkGatewayEntry kv))
          = keyToPair kv.1 := by
      intro kv _
      rw [Option.map_map]
      exact mkGatewayEntry_pair kv
    rw [List.filterMap_congr hcongr]
    have hmapfst :
        List.filterMap (fun kv : String × List Listener => keyToPair kv.1) (lmapOf gOrd)
          = List.filterMap keyToPair ((lmapOf gOrd).map Prod.fst) := by
      rw [List.filterMap_map]
      rfl
    rw [hmapfst]
    exact List.Nodup.filterMap
      (fun k k' pq h1 h2 => keyToPair_inj (Option.mem_def.mp h1) (Option.mem_def.mp h2)) hnd
  · intro rg hrg
    have hk : gatewayKeyOf rg ∈ alKeys (lmapOf gOrd) :=
      (mem_alKeys_lmapOf _ _).mpr ⟨rg, hrg, rfl⟩
    rcases List.mem_map.mp hk with ⟨kv, hkv, hfst⟩
    have hsplit : splitSlash kv.1 = [rg.ns, rg.ingressClass] := by
      rw [hfst]
      exact splitSlash_pair _ _ (hslash rg hrg).1 (hslash rg hrg).2
    have hentry : mkGatewayEntry kv = some (kv.1, gatewayFor kv rg.ns rg.ingressClass) := by
      unfold mkGatewayEntry
      rw [hsplit]
    refine ⟨gatewayFor kv rg.ns rg.ingressClass, ?_, rfl, rfl⟩
    rw [hgw]
    exact List.mem_map.mpr ⟨(kv.1, gatewayFor kv rg.ns rg.ingressClass),
      List.mem_filterMap.mpr ⟨kv, hkv, hentry⟩, rfl⟩
  · intro gw hgwm
    rw [hgw] at hgwm
    rcases List.mem_map.mp hgwm with ⟨e, he, rfl⟩
    rcases List.mem_filterMap.mp he with ⟨kv, hkv, hentry⟩
    rcases mkGatewayEntry_some_inv hentry with ⟨p, q, hsplit, rfl⟩
    have hkmem : kv.1 ∈ alKeys (lmapOf gOrd) := List.mem_map_of_mem Prod.fst hkv
    rcases (mem_alKeys_lmapOf _ _).mp hkmem with ⟨rg, hrg, hkey⟩
    have hsplit2 : splitSlash kv.1 = [rg.ns, rg.ingressClass] := by
      rw [← hkey]
      exact splitSlash_pair _ _ (hslash rg hrg).1 (hslash rg hrg).2
    rw [hsplit] at hsplit2
    injection hsplit2 with h1 h2
    injection h2 with h2 _
    exact ⟨rg, hrg, h1.symm, h2.symm⟩
  · intro gw hgwm
    rw [hgw] at hgwm
    rcases List.mem_map.mp hgwm with ⟨e, he, rfl⟩
    rcases List.mem_filterMap.mp he with ⟨kv, hkv, hentry⟩
    rcases mkGatewayEntry_some_inv hentry with ⟨p, q, hsplit, rfl⟩
    refine ⟨rfl, ?_⟩
    have hval : alGet (lmapOf gOrd) kv.1 = some kv.2 := alGet_of_mem_nodup hnd hkv
    rw [alGet_lmapOf] at hval
    have hfeq : gOrd.filter (fun rg => gatewayKeyOf rg = kv.1)
        = gOrd.filter (fun rg => rg.ns = p ∧ rg.ingressClass = q) := by
      refine List.filter_congr ?_
      intro rg' hrg'
      have hiff : gatewayKeyOf rg' = kv.1 ↔ (rg'.ns = p ∧ rg'.ingressClass = q) := by
        constructor
        · intro he2
          have hs2 : splitSlash (gatewayKeyOf rg') = [rg'.ns, rg'.ingressClass] :=
            splitSlash_pair _ _ (hslash rg' hrg').1 (hslash rg' hrg').2
          rw [he2, hsplit] at hs2
          injection hs2 with ha hb
          injection hb with hb _
          exact ⟨ha.symm, hb.symm⟩
        · rintro ⟨ha, hb⟩
          rw [splitSlash_eq_two hsplit, gatewayKeyOf, ha, hb]
      exact decide_eq_decide.mpr hiff
    show expandListeners kv.2
        = ((gOrd.filter (fun rg => rg.ns = p ∧ rg.ingressClass = q)).flatMap
            (fun rg => expandListener (groupListener rg)))
    cases hfil : gOrd.filter (fun rg => gatewayKeyOf rg = kv.1) with
    | nil =>
      rw [hfil] at hval
      cases hval
    | cons f fs =>
      rw [hfil] at hval
      injection hval with hval
      rw [← hfeq, hfil, ← hval]
      rw [show expandListeners ((f :: fs).map groupListener)
          = ((f :: fs).map groupListener).flatMap expandListener from rfl]
      rw [List.flatMap_map]
  · intro rg
    unfold expandListener groupListener
    cases htl : rg.tls with
    | nil => simp
    | cons t ts => simp

/-- Components of the two-host run's output, used by the C8 witness. -/
def exMatchOf (p : String) : HTTPRouteMatch :=
  { path := some { type := some PathMatchType.pathPrefix, value := some p }, headers := [] }

def exBrOf (n : String) : BackendRef :=
  { group := none, kind := none, name := n, port := some 80, weight := none }

def exRouteOf (nm hn p svc : String) : HTTPRoute :=
  { name := nm, ns := "nsa", parentRefs := ["cls"], hostnames := [hn],
    rules := [{ ruleMatches := [exMatchOf p], backendRefs := [exBrOf svc] }] }

def exListenerOf (nm hn : String) : Listener :=
  { name := nm, hostname := some hn, port := 80, protocol := "HTTP", tls := none }

def exGw2 : Gateway :=
  { ns := "nsa", name := "cls", className := "cls",
    listeners := [exListenerOf "h1-com-http" "h1.com", exListenerOf "h2-com-http" "h2.com"] }

def exOut2 : PipelineOut :=
  { routes := [exRouteOf "h1-com" "h1.com" "/a" "s1", exRouteOf "h2-com" "h2.com" "/b" "s2"],
    gateways := [exGw2],
    errs := [] }

theorem c8_gateway_structure_witness :
    ((exOut2.gateways.map (fun gw => (gw.ns, gw.name))).Nodup) :=
  (c8_gateway_structure (aggregate [exIngHost1, exIngHost2])
    (groupsOf (aggregate [exIngHost1, exIngHost2])) exOut2
    (by decide) (by decide)).1

/-! ## Claim C2 (amended): determinism up to map iteration order -/

def emptyRoute : HTTPRoute :=
  { name := "", ns := "", parentRefs := [], hostnames := [], rules := [] }

theorem routesOf_none_iff (gOrd : List IngressRuleGroup) :
    routesOf gOrd = none ↔ ∃ rg ∈ gOrd, toHTTPRoute rg = none := by
  induction gOrd with
  | nil => simp [routesOf]
  | cons rg rest ih =>
    cases h : toHTTPRoute rg with
    | none =>
      have hr : routesOf (rg :: rest) = none := by simp [routesOf, h]
      rw [hr]
      constructor
      · intro _
        exact ⟨rg, List.mem_cons_self rg rest, h⟩
      · intro _
        rfl
    | some pr =>
      cases hrest : routesOf rest with
      | none =>
        simp only [routesOf, h, hrest]
        constructor
        · intro _
          rcases ih.mp hrest with ⟨rg', hrg', hn⟩
          exact ⟨rg', List.mem_cons_of_mem rg hrg', hn⟩
        · intro _; rfl
      | some rs =>
        simp only [routesOf, h, hrest]
        constructor
        · intro hc; cases hc
        · rintro ⟨rg', hrg', hn⟩
          rcases List.mem_cons.mp hrg' with rfl | hm
          · rw [h] at hn; cases hn
          · have : routesOf rest = none := ih.mpr ⟨rg', hm, hn⟩
            rw [hrest] at this
            cases this

theorem routesOf_eq_map :
    ∀ (gOrd : List IngressRuleGroup) (rs : List HTTPRoute), routesOf gOrd = some rs →
      rs = gOrd.map (fun rg => ((toHTTPRoute rg).map Prod.fst).getD emptyRoute) := by
  intro gOrd
  induction gOrd with
  | nil =>
    intro rs h
    injection h with h
    rw [← h]
    rfl
  | cons rg rest ih =>
    intro rs h
    cases hr : toHTTPRoute rg with
    | none => rw [show routesOf (rg :: rest) = none by simp [routesOf, hr]] at h; cases h
    | some pr =>
      cases hrest : routesOf rest with
      | none =>
        rw [show routesOf (rg :: rest) = none by simp [routesOf, hr, hrest]] at h
        cases h
      | some rs' =>
        rw [show routesOf (rg :: rest) = some (pr.1 :: rs') by
          simp [routesOf, hr, hrest]] at h
        injection h with h
        rw [← h, List.map_cons, hr, ← ih rs' hrest]
        rfl

/-- The listeners stored for one key of the listener map. -/
theorem lmap_val {gOrd : List IngressRuleGroup} {kv : String × List Listener}
    (hkv : kv ∈ lmapOf gOrd) :
    kv.2 = (gOrd.filter (fun rg => gatewayKeyOf rg = kv.1)).map groupListener := by
  have hnd : (alKeys (lmapOf gOrd)).Nodup :=
    alKeys_mapBuild_nodup _ _ gOrd [] (by simp [alKeys])
  have hval := alGet_of_mem_nodup hnd hkv
  rw [alGet_lmapOf] at hval
  cases hfil : gOrd.filter (fun rg => gatewayKeyOf rg = kv.1) with
  | nil =>
    rw [hfil] at hval
    cases hval
  | cons f fs =>
    rw [hfil] at hval
    injection hval with h
    rw [← h]

/-- The observable summary of one gateway: identification fields plus the
multiset of its listeners. -/
def gwSummary (gw : Gateway) : String × String × String × Multiset Listener :=
  (gw.ns, gw.name, gw.className, (gw.listeners : Multiset Listener))

/-- The gateway summary determined by a key alone, up to listener order. -/
def gwSummaryAt (gOrd : List IngressRuleGroup) (k : String) :
    Option (String × String × String × Multiset Listener) :=
  match splitSlash k with
  | [p, q] =>
    some (p, q, q,
      ((expandListeners ((gOrd.filter (fun rg => gatewayKeyOf rg = k)).map groupListener) :
        List Listener) : Multiset Listener))
  | _ => none

theorem mkGatewayEntry_summary {gOrd : List IngressRuleGroup} {kv : String × List Listener}
    (hkv : kv ∈ lmapOf gOrd) :
    (mkGatewayEntry kv).map (fun e => gwSummary e.2) = gwSummaryAt gOrd kv.1 := by
  unfold mkGatewayEntry gwSummaryAt
  cases hs : splitSlash kv.1 with
  | nil => rfl
  | cons p ps =>
    cases ps with
    | nil => rfl
    | cons q qs =>
      cases qs with
      | nil =>
        rw [show Option.map (fun e : String × Gateway => gwSummary e.2)
              (some (kv.1, gatewayFor kv p q))
            = some (gwSummary (gatewayFor kv p q)) from rfl]
        rw [show gwSummary (gatewayFor kv p q)
            = (p, q, q, ((expandListeners kv.2 : List Listener) : Multiset Listener)) from rfl]
        rw [lmap_val hkv]
      | cons r rs => rfl

/-- The malformed-key error determined by a key alone. -/
def keyErrOf (k : String) : Option String :=
  match splitSlash k with
  | [_, _] => none
  | _ => some ("Error generating Gateway listeners for key: " ++ k)

theorem gwSummaryAt_perm {gOrd1 gOrd2 : List IngressRuleGroup} (hp : gOrd1.Perm gOrd2)
    (k : String) : gwSummaryAt gOrd1 k = gwSummaryAt gOrd2 k := by
  unfold gwSummaryAt
  cases hs : splitSlash k with
  | nil => rfl
  | cons p ps =>
    cases ps with
    | nil => rfl
    | cons q qs =>
      cases qs with
      | nil =>
        have hlp : (expandListeners
              ((gOrd1.filter (fun rg => gatewayKeyOf rg = k)).map groupListener)).Perm
            (expandListeners
              ((gOrd2.filter (fun rg => gatewayKeyOf rg = k)).map groupListener)) :=
          ((hp.filter _).map groupListener).flatMap_right expandListener
        rw [show ((expandListeners ((gOrd1.filter (fun rg => gatewayKeyOf rg = k)).map
              groupListener) : List Listener) : Multiset Listener)
            = ((expandListeners ((gOrd2.filter (fun rg => gatewayKeyOf rg = k)).map
              groupListener) : List Listener) : Multiset Listener) from
          Multiset.coe_eq_coe.mpr hlp]
      | cons r rs => rfl

/-! ### The pipeline with every map iteration order passed explicitly -/

/-- The `pathsByMatchGroup` partition map of one rule group, in insertion
order; `[]` when flattening the group's rules panics. -/
def pmOf (rg : IngressRuleGroup) : List (String × List IngressPath) :=
  match ipsOfRules rg.rules with
  | some ips => pmBuild ips
  | none => []

/-- `toHTTPRoute` with the iteration order over `pathsByMatchGroup` passed
explicitly — Go map range order is unspecified, so a valid order is any
permutation of the partition map's entries. Flattening the rules still
panics on an absent HTTP section. -/
def toHTTPRouteOrd (rg : IngressRuleGroup) (pOrd : List (String × List IngressPath)) :
    Option (HTTPRoute × List String) :=
  match ipsOfRules rg.rules with
  | none => none
  | some _ =>
    (pOrd.foldlM routeRuleStep ([], [])).map (fun re =>
      ({ name := nameFromHost rg.host, ns := rg.ns,
         parentRefs := if rg.ingressClass ≠ "" then [rg.ingressClass] else [],
         hostnames := if rg.host ≠ "" then [rg.host] else [],
         rules := re.1 }, re.2))

/-- Visiting the partition map in insertion order recovers `toHTTPRoute`. -/
theorem toHTTPRoute_eq_ord (rg : IngressRuleGroup) :
    toHTTPRoute rg = toHTTPRouteOrd rg (pmOf rg) := by
  cases hips : ipsOfRules rg.rules with
  | none => simp [toHTTPRoute, toHTTPRouteOrd, pmOf, hips]
  | some ips =>
    simp only [toHTTPRoute, toHTTPRouteOrd, pmOf, hips]
    cases hf : (pmBuild ips).foldlM routeRuleStep ([], []) with
    | none => simp [hf]
    | some re => simp [hf]

/-- Processing of a partition-map visit order in isolation. -/
def partsProcess : List (String × List IngressPath) → Option (List HTTPRouteRule × List String)
  | [] => some ([], [])
  | kv :: rest => do
    let (r, e) ← partitionToRule kv.2
    let pr ← partsProcess rest
    pure (r ++ pr.1, e ++ pr.2)

theorem routeFold_spec :
    ∀ (p : List (String × List IngressPath)) (acc : List HTTPRouteRule × List String),
      p.foldlM routeRuleStep acc
        = (partsProcess p).map (fun pr => (acc.1 ++ pr.1, acc.2 ++ pr.2)) := by
  intro p
  induction p with
  | nil => intro acc; simp [partsProcess]
  | cons kv rest ih =>
    intro acc
    rw [show (kv :: rest).foldlM routeRuleStep acc
        = routeRuleStep acc kv >>= (fun s => rest.foldlM routeRuleStep s) from rfl]
    cases hpt : partitionToRule kv.2 with
    | none =>
      rw [show routeRuleStep acc kv = none by simp [routeRuleStep, hpt]]
      simp [partsProcess, hpt]
    | some re =>
      rw [show routeRuleStep acc kv = some (acc.1 ++ re.1, acc.2 ++ re.2) by
        simp [routeRuleStep, hpt]]
      rw [show (some (acc.1 ++ re.1, acc.2 ++ re.2)
          >>= (fun s => rest.foldlM routeRuleStep s))
          = rest.foldlM routeRuleStep (acc.1 ++ re.1, acc.2 ++ re.2) from rfl]
      rw [ih]
      cases hrest : partsProcess rest with
      | none => simp [partsProcess, hpt, hrest]
      | some pr => simp [partsProcess, hpt, hrest]

theorem partsProcess_none_iff (p : List (String × List IngressPath)) :
    partsProcess p = none ↔ ∃ kv ∈ p, partitionToRule kv.2 = none := by
  induction p with
  | nil => simp [partsProcess]
  | cons kv rest ih =>
    cases hpt : partitionToRule kv.2 with
    | none =>
      have h : partsProcess (kv :: rest) = none := by simp [partsProcess, hpt]
      rw [h]
      constructor
      · intro _
        exact ⟨kv, List.mem_cons_self kv rest, hpt⟩
      · intro _
        rfl
    | some re =>
      cases hrest : partsProcess rest with
      | none =>
        have h : partsProcess (kv :: rest) = none := by simp [partsProcess, hpt, hrest]
        rw [h]
        constructor
        · intro _
          rcases ih.mp hrest with ⟨kv2, hkv2, hn⟩
          exact ⟨kv2, List.mem_cons_of_mem kv hkv2, hn⟩
        · intro _
          rfl
      | some pr =>
        have h : partsProcess (kv :: rest) = some (re.1 ++ pr.1, re.2 ++ pr.2) := by
          simp [partsProcess, hpt, hrest]
        rw [h]
        constructor
        · intro hc
          cases hc
        · rintro ⟨kv2, hkv2, hn⟩
          rcases List.mem_cons.mp hkv2 with rfl | hm
          · rw [hpt] at hn
            cases hn
          · have hcon : partsProcess rest = none := ih.mpr ⟨kv2, hm, hn⟩
            rw [hrest] at hcon
            cases hcon

/-- The rules contributed by one partition-map entry. -/
def partRules (kv : String × List IngressPath) : List HTTPRouteRule :=
  ((partitionToRule kv.2).getD ([], [])).1

theorem partsProcess_rules :
    ∀ (p : List (String × List IngressPath)) (pr : List HTTPRouteRule × List String),
      partsProcess p = some pr → pr.1 = p.flatMap partRules := by
  intro p
  induction p with
  | nil =>
    intro pr h
    injection h with h
    rw [← h]
    rfl
  | cons kv rest ih =>
    intro pr h
    cases hpt : partitionToRule kv.2 with
    | none =>
      rw [show partsProcess (kv :: rest) = none by simp [partsProcess, hpt]] at h
      cases h
    | some re =>
      cases hrest : partsProcess rest with
      | none =>
        rw [show partsProcess (kv :: rest) = none by simp [partsProcess, hpt, hrest]] at h
        cases h
      | some pr2 =>
        rw [show partsProcess (kv :: rest) = some (re.1 ++ pr2.1, re.2 ++ pr2.2) by
          simp [partsProcess, hpt, hrest]] at h
        injection h with h
        rw [← h]
        rw [show (kv :: rest).flatMap partRules
            = partRules kv ++ rest.flatMap partRules from rfl]
        rw [← ih pr2 hrest]
        rw [show partRules kv = re.1 by simp [partRules, hpt]]

/-- The observable summary of one route: identification fields plus the
multiset of its rules. -/
def routeSummary (r : HTTPRoute) :
    String × String × List String × List String × Multiset HTTPRouteRule :=
  (r.name, r.ns, r.parentRefs, r.hostnames, (r.rules : Multiset HTTPRouteRule))

/-- Permuting the partition-map visit order leaves the route's summary (and
its noneness) unchanged. -/
theorem toHTTPRouteOrd_summary_perm (rg : IngressRuleGroup)
    {p1 p2 : List (String × List IngressPath)} (hp : p1.Perm p2) :
    (toHTTPRouteOrd rg p1).map (fun pr => routeSummary pr.1)
      = (toHTTPRouteOrd rg p2).map (fun pr => routeSummary pr.1) := by
  unfold toHTTPRouteOrd
  cases hips : ipsOfRules rg.rules with
  | none => rfl
  | some ips =>
    rw [routeFold_spec p1 ([], []), routeFold_spec p2 ([], [])]
    cases h1 : partsProcess p1 with
    | none =>
      have h2 : partsProcess p2 = none := by
        rw [partsProcess_none_iff] at h1 ⊢
        rcases h1 with ⟨kv, hkv, hn⟩
        exact ⟨kv, hp.mem_iff.mp hkv, hn⟩
      rw [h2]
    | some pr1 =>
      cases h2 : partsProcess p2 with
      | none =>
        exfalso
        rcases (partsProcess_none_iff p2).mp h2 with ⟨kv, hkv, hn⟩
        have hcontra : partsProcess p1 = none :=
          (partsProcess_none_iff p1).mpr ⟨kv, hp.mem_iff.mpr hkv, hn⟩
        rw [h1] at hcontra
        cases hcontra
      | some pr2 =>
        have hr : (pr1.1 : Multiset HTTPRouteRule) = (pr2.1 : Multiset HTTPRouteRule) := by
          rw [partsProcess_rules p1 pr1 h1, partsProcess_rules p2 pr2 h2]
          exact Multiset.coe_eq_coe.mpr (hp.flatMap_right partRules)
        simp [routeSummary, hr]

theorem toHTTPRouteOrd_getD_summary (rg : IngressRuleGroup)
    {p1 p2 : List (String × List IngressPath)} (hp : p1.Perm p2) :
    routeSummary (((toHTTPRouteOrd rg p1).map Prod.fst).getD emptyRoute)
      = routeSummary (((toHTTPRouteOrd rg p2).map Prod.fst).getD emptyRoute) := by
  have he := toHTTPRouteOrd_summary_perm rg hp
  cases h1 : toHTTPRouteOrd rg p1 with
  | none =>
    cases h2 : toHTTPRouteOrd rg p2 with
    | none => rfl
    | some r2 =>
      rw [h1, h2] at he
      exact Option.noConfusion he
  | some r1 =>
    cases h2 : toHTTPRouteOrd rg p2 with
    | none =>
      rw [h1, h2] at he
      exact Option.noConfusion he
    | some r2 =>
      rw [h1, h2] at he
      exact Option.some.inj he

/-- The rule-group loop body with the partition-map orders supplied by
`pOrdF`; otherwise identical to `phase1Step` (route errors still dropped by
the source's shadowing slip). -/
def phase1StepOrd (pOrdF : IngressRuleGroup → List (String × List IngressPath))
    (acc : List HTTPRoute × List (String × List Listener)) (rg : IngressRuleGroup) :
    Option (List HTTPRoute × List (String × List Listener)) := do
  let listener := groupListener rg
  let gwKey := gatewayKeyOf rg
  let lmap := alSet acc.2 gwKey (((alGet acc.2 gwKey).getD []) ++ [listener])
  let (httpRoute, _routeErrors) ← toHTTPRouteOrd rg (pOrdF rg)
  pure (acc.1 ++ [httpRoute], lmap)

def routesOfOrd (pOrdF : IngressRuleGroup → List (String × List IngressPath)) :
    List IngressRuleGroup → Option (List HTTPRoute)
  | [] => some []
  | rg :: rest => do
    let pr ← toHTTPRouteOrd rg (pOrdF rg)
    let rs ← routesOfOrd pOrdF rest
    pure (pr.1 :: rs)

theorem phase1Ord_spec (pOrdF : IngressRuleGroup → List (String × List IngressPath)) :
    ∀ (gOrd : List IngressRuleGroup) (acc : List HTTPRoute × List (String × List Listener)),
      gOrd.foldlM (phase1StepOrd pOrdF) acc
        = (routesOfOrd pOrdF gOrd).map
            (fun rs => (acc.1 ++ rs, mapBuild gatewayKeyOf listenerUpd gOrd acc.2)) := by
  intro gOrd
  induction gOrd with
  | nil => intro acc; simp [mapBuild, routesOfOrd]
  | cons rg rest ih =>
    intro acc
    rw [show (rg :: rest).foldlM (phase1StepOrd pOrdF) acc
        = phase1StepOrd pOrdF acc rg >>= (fun s => rest.foldlM (phase1StepOrd pOrdF) s)
      from rfl]
    cases h : toHTTPRouteOrd rg (pOrdF rg) with
    | none =>
      rw [show phase1StepOrd pOrdF acc rg = none by simp [phase1StepOrd, h]]
      simp [routesOfOrd, h]
    | some pr =>
      rw [show phase1StepOrd pOrdF acc rg = some (acc.1 ++ [pr.1],
          alSet acc.2 (gatewayKeyOf rg) (listenerUpd (alGet acc.2 (gatewayKeyOf rg)) rg)) by
        simp [phase1StepOrd, h, listenerUpd]]
      rw [show (some (acc.1 ++ [pr.1], alSet acc.2 (gatewayKeyOf rg)
            (listenerUpd (alGet acc.2 (gatewayKeyOf rg)) rg))
          >>= (fun s => rest.foldlM (phase1StepOrd pOrdF) s))
          = rest.foldlM (phase1StepOrd pOrdF) (acc.1 ++ [pr.1],
              alSet acc.2 (gatewayKeyOf rg) (listenerUpd (alGet acc.2 (gatewayKeyOf rg)) rg))
        from rfl]
      rw [ih]
      cases hrest : routesOfOrd pOrdF rest with
      | none => simp [routesOfOrd, h, hrest]
      | some rs => simp [routesOfOrd, h, hrest, mapBuild, listenerUpd]

theorem routesOfOrd_none_iff (pOrdF : IngressRuleGroup → List (String × List IngressPath))
    (gOrd : List IngressRuleGroup) :
    routesOfOrd pOrdF gOrd = none ↔ ∃ rg ∈ gOrd, toHTTPRouteOrd rg (pOrdF rg) = none := by
  induction gOrd with
  | nil => simp [routesOfOrd]
  | cons rg rest ih =>
    cases h : toHTTPRouteOrd rg (pOrdF rg) with
    | none =>
      have hr : routesOfOrd pOrdF (rg :: rest) = none := by simp [routesOfOrd, h]
      rw [hr]
      constructor
      · intro _
        exact ⟨rg, List.mem_cons_self rg rest, h⟩
      · intro _
        rfl
    | some pr =>
      cases hrest : routesOfOrd pOrdF rest with
      | none =>
        simp only [routesOfOrd, h, hrest]
        constructor
        · intro _
          rcases ih.mp hrest with ⟨rg2, hrg2, hn⟩
          exact ⟨rg2, List.mem_cons_of_mem rg hrg2, hn⟩
        · intro _
          rfl
      | some rs =>
        simp only [routesOfOrd, h, hrest]
        constructor
        · intro hc
          cases hc
        · rintro ⟨rg2, hrg2, hn⟩
          rcases List.mem_cons.mp hrg2 with rfl | hm
          · rw [h] at hn
            cases hn
          · have hcon : routesOfOrd pOrdF rest = none := ih.mpr ⟨rg2, hm, hn⟩
            rw [hrest] at hcon
            cases hcon

theorem routesOfOrd_eq_map (pOrdF : IngressRuleGroup → List (String × List IngressPath)) :
    ∀ (gOrd : List IngressRuleGroup) (rs : List HTTPRoute),
      routesOfOrd pOrdF gOrd = some rs →
      rs = gOrd.map (fun rg => ((toHTTPRouteOrd rg (pOrdF rg)).map Prod.fst).getD emptyRoute) := by
  intro gOrd
  induction gOrd with
  | nil =>
    intro rs h
    injection h with h
    rw [← h]
    rfl
  | cons rg rest ih =>
    intro rs h
    cases hr : toHTTPRouteOrd rg (pOrdF rg) with
    | none =>
      rw [show routesOfOrd pOrdF (rg :: rest) = none by simp [routesOfOrd, hr]] at h
      cases h
    | some pr =>
      cases hrest : routesOfOrd pOrdF rest with
      | none =>
        rw [show routesOfOrd pOrdF (rg :: rest) = none by simp [routesOfOrd, hr, hrest]] at h
        cases h
      | some rs2 =>
        rw [show routesOfOrd pOrdF (rg :: rest) = some (pr.1 :: rs2) by
          simp [routesOfOrd, hr, hrest]] at h
        injection h with h
        rw [← h, List.map_cons, hr, ← ih rs2 hrest]
        rfl

theorem routesOf_eq_ord (gOrd : List IngressRuleGroup) :
    routesOf gOrd = routesOfOrd pmOf gOrd := by
  induction gOrd with
  | nil => rfl
  | cons rg rest ih =>
    unfold routesOf routesOfOrd
    rw [← toHTTPRoute_eq_ord, ih]

/-- `toHTTPRoutesAndGateways` with every Go map iteration order passed
explicitly: `pOrdF` gives each group's `pathsByMatchGroup` order, `wOrd` the
range order over `listenersByNamespacedGateway`, and `kOrd` the range order
over `gatewaysByKey`; a valid order is a permutation of the respective map's
entries. -/
def toHTTPRoutesAndGatewaysOrd (a : IngressAggregator) (gOrd : List IngressRuleGroup)
    (pOrdF : IngressRuleGroup → List (String × List IngressPath))
    (wOrd : List (String × List Listener)) (kOrd : List (String × Gateway)) :
    Option PipelineOut := do
  let (routes1, _lmap) ← gOrd.foldlM (phase1StepOrd pOrdF) ([], [])
  let (routes2, errs2) ← a.defaultBackends.foldlM phase2Step (routes1, [])
  let (_gmap, errs3) := phase3Fold wOrd ([], [])
  pure { routes := routes2, gateways := kOrd.map (fun kv => kv.2), errs := errs2 ++ errs3 }

theorem pipelineOrd_spec (a : IngressAggregator) (gOrd : List IngressRuleGroup)
    (pOrdF : IngressRuleGroup → List (String × List IngressPath))
    (wOrd : List (String × List Listener)) (kOrd : List (String × Gateway)) :
    toHTTPRoutesAndGatewaysOrd a gOrd pOrdF wOrd kOrd
      = (routesOfOrd pOrdF gOrd).bind (fun rs =>
          (dbProcess a.defaultBackends).map (fun pr =>
            { routes := rs ++ pr.1,
              gateways := kOrd.map (fun kv => kv.2),
              errs := pr.2 ++ (phase3Fold wOrd ([], [])).2 })) := by
  cases hro : routesOfOrd pOrdF gOrd with
  | none => simp [toHTTPRoutesAndGatewaysOrd, phase1Ord_spec pOrdF gOrd ([], []), hro]
  | some rs =>
    cases hdb : dbProcess a.defaultBackends with
    | none =>
      simp [toHTTPRoutesAndGatewaysOrd, phase1Ord_spec pOrdF gOrd ([], []), hro,
        phase2_spec, hdb]
    | some pr =>
      simp [toHTTPRoutesAndGatewaysOrd, phase1Ord_spec pOrdF gOrd ([], []), hro,
        phase2_spec, hdb]

theorem pipelineOrd_some_inv {a : IngressAggregator} {gOrd : List IngressRuleGroup}
    {pOrdF : IngressRuleGroup → List (String × List IngressPath)}
    {wOrd : List (String × List Listener)} {kOrd : List (String × Gateway)}
    {out : PipelineOut}
    (hsome : toHTTPRoutesAndGatewaysOrd a gOrd pOrdF wOrd kOrd = some out) :
    ∃ rs pr, routesOfOrd pOrdF gOrd = some rs ∧ dbProcess a.defaultBackends = some pr ∧
      out = { routes := rs ++ pr.1,
              gateways := kOrd.map (fun kv => kv.2),
              errs := pr.2 ++ (phase3Fold wOrd ([], [])).2 } := by
  rw [pipelineOrd_spec] at hsome
  cases hro : routesOfOrd pOrdF gOrd with
  | none =>
    rw [hro] at hsome
    cases hsome
  | some rs =>
    rw [hro] at hsome
    cases hdb : dbProcess a.defaultBackends with
    | none =>
      rw [hdb] at hsome
      cases hsome
    | some pr =>
      rw [hdb] at hsome
      injection hsome with h
      exact ⟨rs, pr, rfl, rfl, h.symm⟩

/-- The insertion-order run is one instance of the order-passing pipeline:
visiting every map in insertion order recovers `toHTTPRoutesAndGateways`. -/
theorem pipeline_eq_ord (a : IngressAggregator) (gOrd : List IngressRuleGroup) :
    toHTTPRoutesAndGateways a gOrd
      = toHTTPRoutesAndGatewaysOrd a gOrd pmOf (lmapOf gOrd)
          (phase3Fold (lmapOf gOrd) ([], [])).1 := by
  have hnd : (alKeys (lmapOf gOrd)).Nodup :=
    alKeys_mapBuild_nodup _ _ gOrd [] (by simp [alKeys])
  have h3 := phase3_spec (lmapOf gOrd) ([], []) hnd (fun kv _ => rfl)
  rw [pipeline_spec, pipelineOrd_spec, ← routesOf_eq_ord]
  cases hro : routesOf gOrd with
  | none => rfl
  | some rs =>
    cases hdb : dbProcess a.defaultBackends with
    | none => rfl
    | some pr => simp [h3]

/-- C2 (amended): the transformation is a deterministic function of the input
together with the iteration orders of every Go map it ranges over — the
rule-group map, each group's path-partition map (`pathsByMatchGroup`), the
listener map (`listenersByNamespacedGateway`) and the gateway map
(`gatewaysByKey`). The insertion-order run `toHTTPRoutesAndGateways` is one
instance of the order-passing pipeline; two runs with any valid (permuted)
iteration orders succeed or panic together, and on success they agree up to
reordering: the route lists carry permuted route summaries (name, namespace,
parent refs, hostnames, multiset of rules — so routes and rules within a
route may be reordered), the error lists are permutations, and the gateway
lists carry permuted gateway summaries (namespace, name, class, multiset of
listeners). The output is not byte-identical across runs and not a function
of the input alone. -/
theorem c2_deterministic_up_to_order (a : IngressAggregator)
    (gOrd1 gOrd2 : List IngressRuleGroup)
    (pOrdF1 pOrdF2 : IngressRuleGroup → List (String × List IngressPath))
    (wOrd1 wOrd2 : List (String × List Listener))
    (kOrd1 kOrd2 : List (String × Gateway))
    (hg : gOrd1.Perm gOrd2)
    (hp1 : ∀ rg ∈ gOrd1, (pOrdF1 rg).Perm (pmOf rg))
    (hp2 : ∀ rg ∈ gOrd2, (pOrdF2 rg).Perm (pmOf rg))
    (hw1 : wOrd1.Perm (lmapOf gOrd1)) (hw2 : wOrd2.Perm (lmapOf gOrd2))
    (hk1 : kOrd1.Perm (phase3Fold wOrd1 ([], [])).1)
    (hk2 : kOrd2.Perm (phase3Fold wOrd2 ([], [])).1) :
    (toHTTPRoutesAndGateways a gOrd1
      = toHTTPRoutesAndGatewaysOrd a gOrd1 pmOf (lmapOf gOrd1)
          (phase3Fold (lmapOf gOrd1) ([], [])).1) ∧
    ((toHTTPRoutesAndGatewaysOrd a gOrd1 pOrdF1 wOrd1 kOrd1 = none)
      ↔ (toHTTPRoutesAndGatewaysOrd a gOrd2 pOrdF2 wOrd2 kOrd2 = none)) ∧
    (∀ o1 o2, toHTTPRoutesAndGatewaysOrd a gOrd1 pOrdF1 wOrd1 kOrd1 = some o1 →
      toHTTPRoutesAndGatewaysOrd a gOrd2 pOrdF2 wOrd2 kOrd2 = some o2 →
      (o1.routes.map routeSummary).Perm (o2.routes.map routeSummary) ∧
      o1.errs.Perm o2.errs ∧
      (o1.gateways.map gwSummary).Perm (o2.gateways.map gwSummary)) := by
  have hnd1 : (alKeys (lmapOf gOrd1)).Nodup :=
    alKeys_mapBuild_nodup _ _ gOrd1 [] (by simp [alKeys])
  have hnd2 : (alKeys (lmapOf gOrd2)).Nodup :=
    alKeys_mapBuild_nodup _ _ gOrd2 [] (by simp [alKeys])
  have hkeys : (alKeys (lmapOf gOrd1)).Perm (alKeys (lmapOf gOrd2)) := by
    rw [List.perm_ext_iff_of_nodup hnd1 hnd2]
    intro k
    rw [mem_alKeys_lmapOf, mem_alKeys_lmapOf]
    constructor
    · rintro ⟨rg, hrg, hk⟩
      exact ⟨rg, hg.mem_iff.mp hrg, hk⟩
    · rintro ⟨rg, hrg, hk⟩
      exact ⟨rg, hg.mem_iff.mpr hrg, hk⟩
  have hndw1 : (alKeys wOrd1).Nodup := (hw1.map Prod.fst).nodup_iff.mpr hnd1
  have hndw2 : (alKeys wOrd2).Nodup := (hw2.map Prod.fst).nodup_iff.mpr hnd2
  have h3w1 := phase3_spec wOrd1 ([], []) hndw1 (fun kv _ => rfl)
  have h3w2 := phase3_spec wOrd2 ([], []) hndw2 (fun kv _ => rfl)
  refine ⟨pipeline_eq_ord a gOrd1, ?_, ?_⟩
  · rw [pipelineOrd_spec, pipelineOrd_spec]
    have hnone12 : (routesOfOrd pOrdF1 gOrd1 = none) ↔ (routesOfOrd pOrdF2 gOrd2 = none) := by
      rw [routesOfOrd_none_iff, routesOfOrd_none_iff]
      constructor
      · rintro ⟨rg, hrg, hn⟩
        refine ⟨rg, hg.mem_iff.mp hrg, ?_⟩
        have h12 : (pOrdF1 rg).Perm (pOrdF2 rg) :=
          (hp1 rg hrg).trans ((hp2 rg (hg.mem_iff.mp hrg)).symm)
        have he := toHTTPRouteOrd_summary_perm rg h12
        rw [hn] at he
        cases h2 : toHTTPRouteOrd rg (pOrdF2 rg) with
        | none => rfl
        | some r2 =>
          rw [h2] at he
          exact Option.noConfusion he
      · rintro ⟨rg, hrg, hn⟩
        refine ⟨rg, hg.mem_iff.mpr hrg, ?_⟩
        have h12 : (pOrdF1 rg).Perm (pOrdF2 rg) :=
          (hp1 rg (hg.mem_iff.mpr hrg)).trans ((hp2 rg hrg).symm)
        have he := toHTTPRouteOrd_summary_perm rg h12
        rw [hn] at he
        cases h1 : toHTTPRouteOrd rg (pOrdF1 rg) with
        | none => rfl
        | some r1 =>
          rw [h1] at he
          exact Option.noConfusion he
    cases hro1 : routesOfOrd pOrdF1 gOrd1 with
    | none =>
      have hro2 : routesOfOrd pOrdF2 gOrd2 = none := hnone12.mp hro1
      rw [hro2]
      simp
    | some rs1 =>
      cases hro2 : routesOfOrd pOrdF2 gOrd2 with
      | none =>
        exfalso
        have hcon := hnone12.mpr hro2
        rw [hro1] at hcon
        cases hcon
      | some rs2 =>
        cases hdb : dbProcess a.defaultBackends with
        | none => simp
        | some pr => simp
  · intro o1 o2 hs1 hs2
    obtain ⟨rs1, pr1, hro1, hdb1, hout1⟩ := pipelineOrd_some_inv hs1
    obtain ⟨rs2, pr2, hro2, hdb2, hout2⟩ := pipelineOrd_some_inv hs2
    have hpr : pr1 = pr2 := by
      rw [hdb1] at hdb2
      injection hdb2
    subst hpr
    refine ⟨?_, ?_, ?_⟩
    · rw [hout1, hout2]
      have hrs : (rs1.map routeSummary).Perm (rs2.map routeSummary) := by
        rw [routesOfOrd_eq_map pOrdF1 gOrd1 rs1 hro1, routesOfOrd_eq_map pOrdF2 gOrd2 rs2 hro2]
        rw [List.map_map, List.map_map]
        have hcongr : ∀ rg ∈ gOrd1,
            (routeSummary ∘ fun rg =>
              ((toHTTPRouteOrd rg (pOrdF1 rg)).map Prod.fst).getD emptyRoute) rg
            = (routeSummary ∘ fun rg =>
              ((toHTTPRouteOrd rg (pOrdF2 rg)).map Prod.fst).getD emptyRoute) rg := by
          intro rg hrg
          have h12 : (pOrdF1 rg).Perm (pOrdF2 rg) :=
            (hp1 rg hrg).trans ((hp2 rg (hg.mem_iff.mp hrg)).symm)
          exact toHTTPRouteOrd_getD_summary rg h12
        rw [List.map_congr_left hcongr]
        exact hg.map _
      show ((rs1 ++ pr1.1).map routeSummary).Perm ((rs2 ++ pr1.1).map routeSummary)
      rw [List.map_append, List.map_append]
      exact hrs.append (List.Perm.refl _)
    · rw [hout1, hout2]
      show (pr1.2 ++ (phase3Fold wOrd1 ([], [])).2).Perm
          (pr1.2 ++ (phase3Fold wOrd2 ([], [])).2)
      have he1 : (phase3Fold wOrd1 ([], [])).2 = wOrd1.filterMap mkKeyError := by
        rw [h3w1]
        rfl
      have he2 : (phase3Fold wOrd2 ([], [])).2 = wOrd2.filterMap mkKeyError := by
        rw [h3w2]
        rfl
      rw [he1, he2]
      refine (List.Perm.refl pr1.2).append ?_
      have e1 : wOrd1.filterMap mkKeyError = (wOrd1.map Prod.fst).filterMap keyErrOf := by
        rw [List.filterMap_map]
        rfl
      have e2 : wOrd2.filterMap mkKeyError = (wOrd2.map Prod.fst).filterMap keyErrOf := by
        rw [List.filterMap_map]
        rfl
      rw [e1, e2]
      have hkperm : (wOrd1.map Prod.fst).Perm (wOrd2.map Prod.fst) :=
        (hw1.map Prod.fst).trans (hkeys.trans ((hw2.map Prod.fst).symm))
      exact hkperm.filterMap keyErrOf
    · rw [hout1, hout2]
      show ((kOrd1.map (fun kv => kv.2)).map gwSummary).Perm
          ((kOrd2.map (fun kv => kv.2)).map gwSummary)
      have hk1f : kOrd1.Perm (wOrd1.filterMap mkGatewayEntry) := by
        have hfix : (phase3Fold wOrd1 ([], [])).1 = wOrd1.filterMap mkGatewayEntry := by
          rw [h3w1]
          rfl
        rw [← hfix]
        exact hk1
      have hk2f : kOrd2.Perm (wOrd2.filterMap mkGatewayEntry) := by
        have hfix : (phase3Fold wOrd2 ([], [])).1 = wOrd2.filterMap mkGatewayEntry := by
          rw [h3w2]
          rfl
        rw [← hfix]
        exact hk2
      have s1 : ((kOrd1.map (fun kv => kv.2)).map gwSummary).Perm
          (((wOrd1.filterMap mkGatewayEntry).map (fun kv => kv.2)).map gwSummary) :=
        (hk1f.map _).map _
      have s2 : ((kOrd2.map (fun kv => kv.2)).map gwSummary).Perm
          (((wOrd2.filterMap mkGatewayEntry).map (fun kv => kv.2)).map gwSummary) :=
        (hk2f.map _).map _
      have f1 : (((wOrd1.filterMap mkGatewayEntry).map (fun kv => kv.2)).map gwSummary)
          = (wOrd1.map Prod.fst).filterMap (gwSummaryAt gOrd1) := by
        rw [List.map_filterMap, List.map_filterMap]
        have hc : ∀ kv ∈ wOrd1,
            Option.map gwSummary
                (Option.map (fun kv : String × Gateway => kv.2) (mkGatewayEntry kv))
              = gwSummaryAt gOrd1 kv.1 := by
          intro kv hkv
          rw [Option.map_map]
          exact mkGatewayEntry_summary (hw1.mem_iff.mp hkv)
        rw [List.filterMap_congr hc]
        have hmf : List.filterMap
              (fun kv : String × List Listener => gwSummaryAt gOrd1 kv.1) wOrd1
            = List.filterMap (gwSummaryAt gOrd1) (wOrd1.map Prod.fst) := by
          rw [List.filterMap_map]
          rfl
        rw [hmf]
      have f2 : (((wOrd2.filterMap mkGatewayEntry).map (fun kv => kv.2)).map gwSummary)
          = (wOrd2.map Prod.fst).filterMap (gwSummaryAt gOrd2) := by
        rw [List.map_filterMap, List.map_filterMap]
        have hc : ∀ kv ∈ wOrd2,
            Option.map gwSummary
                (Option.map (fun kv : String × Gateway => kv.2) (mkGatewayEntry kv))
              = gwSummaryAt gOrd2 kv.1 := by
          intro kv hkv
          rw [Option.map_map]
          exact mkGatewayEntry_summary (hw2.mem_iff.mp hkv)
        rw [List.filterMap_congr hc]
        have hmf : List.filterMap
              (fun kv : String × List Listener => gwSummaryAt gOrd2 kv.1) wOrd2
            = List.filterMap (gwSummaryAt gOrd2) (wOrd2.map Prod.fst) := by
          rw [List.filterMap_map]
          rfl
        rw [hmf]
      rw [f1] at s1
      rw [f2] at s2
      have smid : ((wOrd1.map Prod.fst).filterMap (gwSummaryAt gOrd1)).Perm
          ((wOrd2.map Prod.fst).filterMap (gwSummaryAt gOrd2)) := by
        have hkperm : (wOrd1.map Prod.fst).Perm (wOrd2.map Prod.fst) :=
          (hw1.map Prod.fst).trans (hkeys.trans ((hw2.map Prod.fst).symm))
        have hstep1 := hkperm.filterMap (gwSummaryAt gOrd1)
        have hstep2 : (wOrd2.map Prod.fst).filterMap (gwSummaryAt gOrd1)
            = (wOrd2.map Prod.fst).filterMap (gwSummaryAt gOrd2) :=
          List.filterMap_congr (fun k _ => gwSummaryAt_perm hg k)
        rw [hstep2] at hstep1
        exact hstep1
      exact s1.trans (smid.trans s2.symm)

theorem c2_deterministic_up_to_order_witness :
    (toHTTPRoutesAndGatewaysOrd (aggregate [exIngHost1, exIngHost2])
        ((groupsOf (aggregate [exIngHost1, exIngHost2])).reverse)
        (fun rg => (pmOf rg).reverse)
        (lmapOf ((groupsOf (aggregate [exIngHost1, exIngHost2])).reverse))
        (phase3Fold (lmapOf ((groupsOf (aggregate [exIngHost1, exIngHost2])).reverse))
          ([], [])).1 = none)
    ↔ (toHTTPRoutesAndGatewaysOrd (aggregate [exIngHost1, exIngHost2])
        (groupsOf (aggregate [exIngHost1, exIngHost2])) pmOf
        (lmapOf (groupsOf (aggregate [exIngHost1, exIngHost2])))
        (phase3Fold (lmapOf (groupsOf (aggregate [exIngHost1, exIngHost2]))) ([], [])).1
        = none) :=
  (c2_deterministic_up_to_order (aggregate [exIngHost1, exIngHost2])
    ((groupsOf (aggregate [exIngHost1, exIngHost2])).reverse)
    (groupsOf (aggregate [exIngHost1, exIngHost2]))
    (fun rg => (pmOf rg).reverse) pmOf
    (lmapOf ((groupsOf (aggregate [exIngHost1, exIngHost2])).reverse))
    (lmapOf (groupsOf (aggregate [exIngHost1, exIngHost2])))
    (phase3Fold (lmapOf ((groupsOf (aggregate [exIngHost1, exIngHost2])).reverse)) ([], [])).1
    (phase3Fold (lmapOf (groupsOf (aggregate [exIngHost1, exIngHost2]))) ([], [])).1
    (List.reverse_perm _)
    (fun rg _ => List.reverse_perm (pmOf rg))
    (fun rg _ => List.Perm.refl (pmOf rg))
    (List.Perm.refl _) (List.Perm.refl _) (List.Perm.refl _) (List.Perm.refl _)).2.1
